import Mathlib

/-!
Shallow embedding of `src/mapray/SceneLoader.js` (mapray-js).

The loader runs on a single-threaded JavaScript event loop: each synchronous
block of code (a promise `.then` handler, an image `onload`/`onerror`
handler, a call to `cancel()`) executes atomically, and asynchronous
boundaries are the points where other events may interleave.  We embed the
loader as a state machine: `LState` holds the loader's instance fields
together with the observable effects on its collaborators (the scene's
loader registry and entity list, and the count of completion-callback
invocations), plus the multiset of pending asynchronous continuations
(`pending : List LTask`).  The relation `Step` runs one pending continuation
(with the network outcome chosen nondeterministically) or performs one user
action (`cancel`), each translated statement-by-statement from the source.
-/

namespace Mapray

/-- Entry of the manifest's `mesh_register`: `{ binary: url }` or
`{ vertices: ... }` (the inline payload is irrelevant to control flow, so we
only record whether the `vertices` field is present; a present JS array is
always truthy). -/
structure MeshEntry where
  binary   : Option String
  vertices : Bool
  deriving DecidableEq

/-- Entry of the manifest's `texture_register`: `{ image: url }`. -/
structure TexEntry where
  image : Option String
  deriving DecidableEq

/-- Descriptor from the manifest's `entity_list`: `type` tag (absent means
`"generic"`), optional `id`; the type-specific payload is carried opaquely
by the descriptor itself. -/
structure EntityItem where
  type : Option String
  id   : Option String
  deriving DecidableEq

/-- The parsed scene JSON object (`oscene` fields read by the loader;
registers are iterated in `Object.keys` order, which we keep as lists). -/
structure Manifest where
  mesh_register    : Option (List (String × MeshEntry))
  texture_register : Option (List (String × TexEntry))
  entity_list      : Option (List EntityItem)
  deriving DecidableEq

/-- JavaScript truthiness of an optional string field (`undefined` and the
empty string are falsy). -/
def truthyStr : Option String → Bool
  | some s => s != ""
  | none => false

/-- Entities constructed by `_load_entity_list` (`new GenericEntity`,
`new MarkerLineEntity`, `new TextEntity`); the constructor argument
`{ json: item, refs: ... }` is recorded via the descriptor. -/
inductive SEntity
  | generic (item : EntityItem)
  | markerline (item : EntityItem)
  | text (item : EntityItem)
  deriving DecidableEq

/-- Objects stored in the reference table `this._references`:
`new Mesh(glenv, mesh)` for inline meshes, `new Mesh(glenv, buffer)` for
fetched binaries, `new Texture(glenv, image)`, or an entity. -/
inductive RefObj
  | meshInline (entry : MeshEntry)
  | meshBinary
  | texture
  | entity (e : SEntity)
  deriving DecidableEq

/-- Mutable fields the loader stores on the parsed scene object:
`oscene.req_count` and `oscene.req_ended` (plus the manifest itself). -/
structure OScene where
  manifest  : Manifest
  req_count : Int
  req_ended : Bool
  deriving DecidableEq

/-- Pending asynchronous continuations.  `mfetch`/`mjson`/`mcatch` are the
stages of the manifest promise chain in `_loadFile`; `meshFetch`/`meshBuf`/
`meshCatch`/`meshFin` the stages of one `_load_mesh_binary` chain;
`imageLoad` the `onload`/`onerror` event of one `_load_texture_image`;
`cancelCb` the `Promise.resolve().then(...)` scheduled by `cancel()`. -/
inductive LTask
  | mfetch
  | mjson
  | mcatch
  | meshFetch (id : String)
  | meshBuf (id : String)
  | meshCatch (id : String)
  | meshFin (id : String)
  | imageLoad (id : String)
  | cancelCb
  deriving DecidableEq

/-- Tasks belonging to a sub-resource (mesh binary or texture image). -/
def isSubTask : LTask → Bool
  | .meshFetch _ | .meshBuf _ | .meshCatch _ | .meshFin _ | .imageLoad _ => true
  | _ => false

/-- Tasks belonging to the manifest promise chain. -/
def isChainTask : LTask → Bool
  | .mfetch | .mjson | .mcatch => true
  | _ => false

/-- The scheduled cancel-completion callback task. -/
def isCancelCbTask : LTask → Bool
  | .cancelCb => true
  | _ => false

/-- Full state of one load operation together with its observable effects.
`references` is the reference table (most recent write first); `nSucc`,
`nFail`, `nCanc` count invocations of the completion callback
`this._callback(this, isSuccess)` from `_success_callback`,
`_fail_callback` and `_cancel_callback` respectively; `addCalls` and
`removeCalls` count `scene.addLoader(this)` / `scene.removeLoader(this)`
invocations; `sceneEntities` is the target scene's entity list (the part
appended by this loader via `scene.addEntity`). -/
structure LState where
  references    : List (String × RefObj)
  cancelled     : Bool
  finished      : Bool
  aborted       : Bool
  registered    : Bool
  addCalls      : Nat
  removeCalls   : Nat
  sceneEntities : List SEntity
  nSucc         : Nat
  nFail         : Nat
  nCanc         : Nat
  oscene        : Option OScene
  pending       : List LTask
  deriving DecidableEq

/-- Lookup in the reference table (first match is the most recent write). -/
def refLookup (refs : List (String × RefObj)) (id : String) : Option RefObj :=
  match refs.find? (fun p => p.1 == id) with
  | some p => some p.2
  | none => none

/-- `getReference(id)`: `var ref = this._references[id];
return (ref !== undefined) ? ref : null;`. -/
def getReference (s : LState) (id : String) : Option RefObj :=
  refLookup s.references id

/-- `_setReference(id, item)`: `this._references[id] = item;`
(an overwrite; represented by prepending, with lookup taking the most
recent binding). -/
def setReference (s : LState) (id : String) (item : RefObj) : LState :=
  { s with references := (id, item) :: s.references }

/-- `_success_callback()`: `if (this._cancelled) return;
this._finished = true; this._scene.removeLoader(this);
this._callback(this, true);`. -/
def success_callback (s : LState) : LState :=
  if s.cancelled then s
  else { s with finished := true, registered := false,
                removeCalls := s.removeCalls + 1, nSucc := s.nSucc + 1 }

/-- `_fail_callback(msg)`: `if (this._cancelled) return;
console.error(msg); this._finished = true; this._scene.removeLoader(this);
this._callback(this, false);`. -/
def fail_callback (s : LState) : LState :=
  if s.cancelled then s
  else { s with finished := true, registered := false,
                removeCalls := s.removeCalls + 1, nFail := s.nFail + 1 }

/-- `_cancel_callback()`: `if (this._finished) return;
this._callback(this, false);`. -/
def cancel_callback (s : LState) : LState :=
  if s.finished then s else { s with nCanc := s.nCanc + 1 }

/-- `cancel()`: `if (this._cancelled) return; this._abort_ctrl.abort();
this._cancelled = true; this._scene.removeLoader(this);
Promise.resolve().then(() => { this._cancel_callback(); });`. -/
def cancel (s : LState) : LState :=
  if s.cancelled then s
  else { s with aborted := true, cancelled := true, registered := false,
                removeCalls := s.removeCalls + 1,
                pending := s.pending ++ [LTask.cancelCb] }

/-- `item.type || "generic"` in `_load_entity_list`. -/
def entityTypeOf (item : EntityItem) : String :=
  match item.type with
  | some s => if s == "" then "generic" else s
  | none => "generic"

/-- The `switch (type)` dispatch of `_load_entity_list`: the entity
constructed for a descriptor, or `none` for an unknown type tag
(`console.error`, entity stays null). -/
def buildEntity (item : EntityItem) : Option SEntity :=
  let t := entityTypeOf item
  if t == "generic" then some (.generic item)
  else if t == "markerline" then some (.markerline item)
  else if t == "text" then some (.text item)
  else none

/-- One iteration of the `_load_entity_list` loop: construct the entity by
type tag; if non-null, `scene.addEntity(entity)` and, when `item.id` is
truthy, `this._setReference(id, entity)`. -/
def addEntityStep (s : LState) (item : EntityItem) : LState :=
  match buildEntity item with
  | some e =>
    let s1 := { s with sceneEntities := s.sceneEntities ++ [e] }
    match item.id with
    | some id => if id == "" then s1 else setReference s1 id (.entity e)
    | none => s1
  | none => s

/-- `_load_entity_list(oscene)`: iterate `oscene["entity_list"]` in order
(no-op when the field is absent). -/
def load_entity_list (s : LState) : LState :=
  match s.oscene with
  | some o =>
    match o.manifest.entity_list with
    | some items => items.foldl addEntityStep s
    | none => s
  | none => s

/-- `_postload_object(oscene)`: `if (this._cancelled) return;
this._load_entity_list(oscene); this._success_callback();`. -/
def postload_object (s : LState) : LState :=
  if s.cancelled then s else success_callback (load_entity_list s)

/-- `++oscene.req_count`. -/
def bump_req (s : LState) : LState :=
  { s with oscene := s.oscene.map (fun o => { o with req_count := o.req_count + 1 }) }

/-- `--oscene.req_count`. -/
def decr_req (s : LState) : LState :=
  { s with oscene := s.oscene.map (fun o => { o with req_count := o.req_count - 1 }) }

/-- `_postload_object_ifNoReq(oscene)`: `--oscene.req_count;
if ((oscene.req_count == 0) && oscene.req_ended) { this._postload_object(oscene); }`. -/
def postload_object_ifNoReq (s : LState) : LState :=
  let s1 := decr_req s
  match s1.oscene with
  | some o => if o.req_count == 0 && o.req_ended then postload_object s1 else s1
  | none => s1

/-- `_load_mesh_binary(oscene, id, url)`: sets up the fetch promise chain
for the mesh binary, then `++oscene.req_count`. -/
def load_mesh_binary (s : LState) (id : String) : LState :=
  bump_req { s with pending := s.pending ++ [LTask.meshFetch id] }

/-- The loop body of `_load_mesh_register`: `if (mesh.binary) {
this._load_mesh_binary(...); } else if (mesh.vertices) {
this._setReference(id, new Mesh(this._glenv, mesh)); }`. -/
def load_mesh_entry (s : LState) (id : String) (mesh : MeshEntry) : LState :=
  if truthyStr mesh.binary then load_mesh_binary s id
  else if mesh.vertices then setReference s id (.meshInline mesh)
  else s

/-- The `for` loop of `_load_mesh_register` over `Object.keys`. -/
def load_mesh_list : LState → List (String × MeshEntry) → LState
  | s, [] => s
  | s, (id, mesh) :: rest => load_mesh_list (load_mesh_entry s id mesh) rest

/-- `_load_mesh_register(oscene)`:
`var mesh_register = oscene["mesh_register"]; if (!mesh_register) return;`
then the key loop. -/
def load_mesh_register (s : LState) (mr : Option (List (String × MeshEntry))) : LState :=
  match mr with
  | none => s
  | some entries => load_mesh_list s entries

/-- `_load_texture_image(oscene, id, url)`: installs `onload`/`onerror`,
then `++oscene.req_count; image.src = tr.url;`. -/
def load_texture_image (s : LState) (id : String) : LState :=
  bump_req { s with pending := s.pending ++ [LTask.imageLoad id] }

/-- The loop body of `_load_texture_register`: `if (texture.image) {
this._load_texture_image(...); }`. -/
def load_texture_entry (s : LState) (id : String) (tex : TexEntry) : LState :=
  if truthyStr tex.image then load_texture_image s id else s

/-- The `for` loop of `_load_texture_register` over `Object.keys`. -/
def load_texture_list : LState → List (String × TexEntry) → LState
  | s, [] => s
  | s, (id, tex) :: rest => load_texture_list (load_texture_entry s id tex) rest

/-- `_load_texture_register(oscene)`:
`var texture_register = oscene["texture_register"];
if (!texture_register) return;` then the key loop. -/
def load_texture_register (s : LState) (tr : Option (List (String × TexEntry))) : LState :=
  match tr with
  | none => s
  | some entries => load_texture_list s entries

/-- `oscene.req_count` of the current state (the loader always has the
parsed object in hand when it reads this). -/
def req_count_of (s : LState) : Int :=
  match s.oscene with
  | some o => o.req_count
  | none => 0

/-- `_load_object(oscene)`: `oscene.req_count = 0; oscene.req_ended = false;
this._load_mesh_register(oscene); this._load_texture_register(oscene);
if (oscene.req_count == 0) { this._postload_object(oscene); }
oscene.req_ended = true;` — one atomic synchronous block. -/
def load_object (m : Manifest) (s : LState) : LState :=
  let s0 := { s with oscene := some { manifest := m, req_count := 0, req_ended := false } }
  let s1 := load_mesh_register s0 m.mesh_register
  let s2 := load_texture_register s1 m.texture_register
  let s3 := if req_count_of s2 == 0 then postload_object s2 else s2
  { s3 with oscene := s3.oscene.map (fun o => { o with req_ended := true }) }

/-- Resolution of the manifest `fetch` with a response: the first `.then`
handler runs `this._check_cancel(); return response.json();`; a thrown
cancellation error skips to the `.catch`. -/
def run_mfetch_ok (s : LState) (l₁ l₂ : List LTask) : LState :=
  { s with pending := l₁ ++ (if s.cancelled then LTask.mcatch else LTask.mjson) :: l₂ }

/-- Rejection of the manifest `fetch` (network failure or abort): control
moves to the `.catch` handler. -/
def run_mfetch_fail (s : LState) (l₁ l₂ : List LTask) : LState :=
  { s with pending := l₁ ++ LTask.mcatch :: l₂ }

/-- Rejection of `response.json()` (malformed body): to the `.catch`. -/
def run_mjson_fail (s : LState) (l₁ l₂ : List LTask) : LState :=
  { s with pending := l₁ ++ LTask.mcatch :: l₂ }

/-- Resolution of `response.json()` with the parsed object: the second
`.then` runs `this._check_cancel(); this._load_object(oscene);`; a thrown
cancellation error skips to the `.catch`. -/
def run_mjson_ok (s : LState) (l₁ l₂ : List LTask) (m : Manifest) : LState :=
  if s.cancelled then { s with pending := l₁ ++ LTask.mcatch :: l₂ }
  else load_object m { s with pending := l₁ ++ l₂ }

/-- The `.catch` handler of `_loadFile`: `this._fail_callback(...)`. -/
def run_mcatch (s : LState) (l₁ l₂ : List LTask) : LState :=
  fail_callback { s with pending := l₁ ++ l₂ }

/-- Rejection of one mesh-binary `fetch`: to its `.catch` stage. -/
def run_mesh_fetch_fail (s : LState) (l₁ l₂ : List LTask) (id : String) : LState :=
  { s with pending := l₁ ++ LTask.meshCatch id :: l₂ }

/-- Resolution of one mesh-binary `fetch`: `this._check_cancel();
return response.arrayBuffer();`. -/
def run_mesh_fetch_ok (s : LState) (l₁ l₂ : List LTask) (id : String) : LState :=
  { s with pending := l₁ ++ (if s.cancelled then LTask.meshCatch id else LTask.meshBuf id) :: l₂ }

/-- Rejection of `response.arrayBuffer()`: to the `.catch` stage. -/
def run_mesh_buf_fail (s : LState) (l₁ l₂ : List LTask) (id : String) : LState :=
  { s with pending := l₁ ++ LTask.meshCatch id :: l₂ }

/-- Resolution of `response.arrayBuffer()`: `this._check_cancel();
this._setReference(id, new Mesh(this._glenv, buffer));`; a thrown
cancellation error skips the write and goes to the `.catch`. -/
def run_mesh_buf_ok (s : LState) (l₁ l₂ : List LTask) (id : String) : LState :=
  if s.cancelled then { s with pending := l₁ ++ LTask.meshCatch id :: l₂ }
  else setReference { s with pending := l₁ ++ LTask.meshFin id :: l₂ } id .meshBinary

/-- The mesh chain's `.catch`: `console.error(...)` only. -/
def run_mesh_catch (s : LState) (l₁ l₂ : List LTask) (id : String) : LState :=
  { s with pending := l₁ ++ LTask.meshFin id :: l₂ }

/-- The mesh chain's final `.then`: `this._postload_object_ifNoReq(oscene)`. -/
def run_mesh_fin (s : LState) (l₁ l₂ : List LTask) : LState :=
  postload_object_ifNoReq { s with pending := l₁ ++ l₂ }

/-- `image.onload`: `if (!this._cancelled) { this._setReference(id,
new Texture(this._glenv, image)); } this._postload_object_ifNoReq(oscene);`. -/
def run_image_ok (s : LState) (l₁ l₂ : List LTask) (id : String) : LState :=
  postload_object_ifNoReq
    (if s.cancelled then { s with pending := l₁ ++ l₂ }
     else setReference { s with pending := l₁ ++ l₂ } id .texture)

/-- `image.onerror`: `console.error(...);
this._postload_object_ifNoReq(oscene);`. -/
def run_image_fail (s : LState) (l₁ l₂ : List LTask) : LState :=
  postload_object_ifNoReq { s with pending := l₁ ++ l₂ }

/-- The microtask scheduled by `cancel()`: `this._cancel_callback();`. -/
def run_cancel_cb (s : LState) (l₁ l₂ : List LTask) : LState :=
  cancel_callback { s with pending := l₁ ++ l₂ }

/-- One step of the event loop: either the user calls `cancel()`, or one
pending continuation is run, with the outcome of each network/decode
boundary chosen by the environment. -/
inductive Step : LState → LState → Prop
  | user_cancel {s : LState} : Step s (cancel s)
  | mfetch_ok {s : LState} {l₁ l₂ : List LTask} :
      s.pending = l₁ ++ LTask.mfetch :: l₂ → Step s (run_mfetch_ok s l₁ l₂)
  | mfetch_fail {s : LState} {l₁ l₂ : List LTask} :
      s.pending = l₁ ++ LTask.mfetch :: l₂ → Step s (run_mfetch_fail s l₁ l₂)
  | mjson_ok {s : LState} {l₁ l₂ : List LTask} (m : Manifest) :
      s.pending = l₁ ++ LTask.mjson :: l₂ → Step s (run_mjson_ok s l₁ l₂ m)
  | mjson_fail {s : LState} {l₁ l₂ : List LTask} :
      s.pending = l₁ ++ LTask.mjson :: l₂ → Step s (run_mjson_fail s l₁ l₂)
  | mcatch {s : LState} {l₁ l₂ : List LTask} :
      s.pending = l₁ ++ LTask.mcatch :: l₂ → Step s (run_mcatch s l₁ l₂)
  | mesh_fetch_ok {s : LState} {l₁ l₂ : List LTask} {id : String} :
      s.pending = l₁ ++ LTask.meshFetch id :: l₂ → Step s (run_mesh_fetch_ok s l₁ l₂ id)
  | mesh_fetch_fail {s : LState} {l₁ l₂ : List LTask} {id : String} :
      s.pending = l₁ ++ LTask.meshFetch id :: l₂ → Step s (run_mesh_fetch_fail s l₁ l₂ id)
  | mesh_buf_ok {s : LState} {l₁ l₂ : List LTask} {id : String} :
      s.pending = l₁ ++ LTask.meshBuf id :: l₂ → Step s (run_mesh_buf_ok s l₁ l₂ id)
  | mesh_buf_fail {s : LState} {l₁ l₂ : List LTask} {id : String} :
      s.pending = l₁ ++ LTask.meshBuf id :: l₂ → Step s (run_mesh_buf_fail s l₁ l₂ id)
  | mesh_catch {s : LState} {l₁ l₂ : List LTask} {id : String} :
      s.pending = l₁ ++ LTask.meshCatch id :: l₂ → Step s (run_mesh_catch s l₁ l₂ id)
  | mesh_fin {s : LState} {l₁ l₂ : List LTask} {id : String} :
      s.pending = l₁ ++ LTask.meshFin id :: l₂ → Step s (run_mesh_fin s l₁ l₂)
  | image_ok {s : LState} {l₁ l₂ : List LTask} {id : String} :
      s.pending = l₁ ++ LTask.imageLoad id :: l₂ → Step s (run_image_ok s l₁ l₂ id)
  | image_fail {s : LState} {l₁ l₂ : List LTask} {id : String} :
      s.pending = l₁ ++ LTask.imageLoad id :: l₂ → Step s (run_image_fail s l₁ l₂)
  | cancel_cb {s : LState} {l₁ l₂ : List LTask} :
      s.pending = l₁ ++ LTask.cancelCb :: l₂ → Step s (run_cancel_cb s l₁ l₂)

/-- State at the end of the `SceneLoader` constructor: fields initialised,
`_loadFile()` has issued the manifest fetch, `scene.addLoader(this)` has
registered the loader. -/
def initState : LState where
  references    := []
  cancelled     := false
  finished      := false
  aborted       := false
  registered    := true
  addCalls      := 1
  removeCalls   := 0
  sceneEntities := []
  nSucc         := 0
  nFail         := 0
  nCanc         := 0
  oscene        := none
  pending       := [LTask.mfetch]

/-- States reachable from the end of construction. -/
def Reachable (s : LState) : Prop :=
  Relation.ReflTransGen Step initState s

/-- Statement-level actions of the `SceneLoader` constructor, in source
order: field initialisation (lines 29-37), `this._loadFile()` which calls
`fetch(tr.url, ...)` (line 38, issuing the manifest request), and
`scene.addLoader(this)` (line 40). -/
inductive CtorAction
  | setFields
  | issueFetch
  | addLoader
  deriving DecidableEq

/-- The constructor body as an ordered action list. -/
def constructorActions : List CtorAction :=
  [CtorAction.setFields, CtorAction.issueFetch, CtorAction.addLoader]

/-- `true` exactly when the join condition of `_postload_object_ifNoReq`
holds of the state: the parsed object exists with
`oscene.req_count == 0 && oscene.req_ended`. -/
def joinReadyB (s : LState) : Bool :=
  match s.oscene with
  | some o => o.req_count == 0 && o.req_ended
  | none => false

/-- The reference-table write performed for one entity descriptor
(empty when the descriptor is of unknown type or carries no truthy id). -/
def entityWrite (item : EntityItem) : List (String × RefObj) :=
  match buildEntity item, item.id with
  | some e, some id => if id == "" then [] else [(id, RefObj.entity e)]
  | _, _ => []

/-- All reference-table writes of the entity loop, most recent first. -/
def entityWrites : List EntityItem → List (String × RefObj)
  | [] => []
  | item :: rest => entityWrites rest ++ entityWrite item

/-- The entities `_load_entity_list` appends to the scene for a manifest,
in declaration order (unknown-type descriptors skipped). -/
def entityBuilds (m : Manifest) : List SEntity :=
  match m.entity_list with
  | some items => items.filterMap buildEntity
  | none => []

/-- All entity-loop reference-table writes for a manifest. -/
def entityWritesM (m : Manifest) : List (String × RefObj) :=
  match m.entity_list with
  | some items => entityWrites items
  | none => []

/-- Number of mesh-binary fetches dispatched by `_load_mesh_register`. -/
def meshDispatch (mr : Option (List (String × MeshEntry))) : Nat :=
  match mr with
  | some entries => entries.countP (fun p => truthyStr p.2.binary)
  | none => 0

/-- Number of image fetches dispatched by `_load_texture_register`. -/
def texDispatch (tr : Option (List (String × TexEntry))) : Nat :=
  match tr with
  | some entries => entries.countP (fun p => truthyStr p.2.image)
  | none => 0

/-- Number of sub-resource fetches `_load_object` dispatches for a
manifest: mesh entries with a truthy `binary` plus texture entries with a
truthy `image`. -/
def dispatchCount (m : Manifest) : Nat :=
  meshDispatch m.mesh_register + texDispatch m.texture_register

/-- The observable content of a state: every field, with the stored
manifest object itself projected away (only its `req_count`/`req_ended`
mutable fields kept).  Used to compare runs on different manifests. -/
def obs (s : LState) :
    List (String × RefObj) × Bool × Bool × Bool × Bool × Nat × Nat ×
    List SEntity × Nat × Nat × Nat × Option (Int × Bool) × List LTask :=
  (s.references, s.cancelled, s.finished, s.aborted, s.registered,
   s.addCalls, s.removeCalls, s.sceneEntities, s.nSucc, s.nFail, s.nCanc,
   s.oscene.map (fun o => (o.req_count, o.req_ended)), s.pending)

/-- The state reached after both register loops of `_load_object`:
pending list `P`, reference table `R`, and a parsed object with
`req_count = c` and `req_ended` still `false`. -/
def midState (s : LState) (m : Manifest) (P : List LTask)
    (R : List (String × RefObj)) (c : Nat) : LState :=
  { s with pending := P, references := R,
           oscene := some { manifest := m, req_count := (c : Int), req_ended := false } }

/-- Add `n` to `oscene.req_count` (used to describe register enumeration). -/
def bumpN (n : Nat) (x : Option OScene) : Option OScene :=
  x.map (fun o => { o with req_count := o.req_count + (n : Int) })

/-- Every task in the list belongs to a sub-resource chain. -/
def allSub (ts : List LTask) : Prop :=
  ∀ t ∈ ts, isSubTask t = true ∧ isChainTask t = false ∧ isCancelCbTask t = false

/-- Global inductive invariant of the load operation.  It ties the
`req_count` field to the pending sub-resource tasks, makes the manifest
chain linear, and accounts for every completion-callback and
`removeLoader` invocation. -/
structure Inv (s : LState) : Prop where
  chain_le  : s.pending.countP isChainTask ≤ 1
  chain0    : s.oscene.isSome = true → s.pending.countP isChainTask = 0
  cnt       : ∀ o, s.oscene = some o →
                o.req_count = (s.pending.countP isSubTask : Int) ∧ o.req_ended = true
  pre       : s.oscene = none →
                s.pending.countP isSubTask = 0 ∧ s.references = [] ∧
                s.sceneEntities = [] ∧ s.nSucc = 0
  succ_le   : s.nSucc ≤ 1
  succ_jr   : s.nSucc = 1 → joinReadyB s = true
  jr_succ   : joinReadyB s = true → s.cancelled = true ∨ s.nSucc = 1
  fail_le   : s.nFail ≤ 1
  fail_pre  : s.nFail = 1 → s.oscene = none ∧ s.pending.countP isChainTask = 0
  fin_iff   : s.finished = true ↔ 1 ≤ s.nSucc + s.nFail
  canc_le   : s.nCanc ≤ 1
  ccb_le    : s.pending.countP isCancelCbTask ≤ 1
  not_canc  : s.cancelled = false → s.pending.countP isCancelCbTask = 0 ∧ s.nCanc = 0
  canc_done : s.nCanc = 1 → s.pending.countP isCancelCbTask = 0 ∧ s.finished = false
  rem_eq    : s.removeCalls = s.nSucc + s.nFail + (if s.cancelled then 1 else 0)
  reg_iff   : s.registered = decide (s.removeCalls = 0)
  add_eq    : s.addCalls = 1
  ents0     : s.nSucc = 0 → s.sceneEntities = []
  ents_built : s.nSucc = 1 → ∀ o, s.oscene = some o →
                 s.sceneEntities = entityBuilds o.manifest
  ents_refs : s.nSucc = 1 → ∀ o, s.oscene = some o → ∀ id v,
                refLookup (entityWritesM o.manifest) id = some v →
                refLookup s.references id = some v

/-- Concrete states and manifests used to exercise the theorems. -/
def exS1 : LState := run_mfetch_ok initState [] []

/-- A manifest with no registers and no entity list. -/
def exEmptyManifest : Manifest := ⟨none, none, none⟩

/-- After delivering the empty manifest: immediate success. -/
def exSuccEmpty : LState := run_mjson_ok exS1 [] [] exEmptyManifest

/-- `cancel()` called after success has already fired. -/
def exAfterSucc : LState := cancel exSuccEmpty

/-- Entity descriptor with omitted `type` and id `"e1"`. -/
def exEntityItem : EntityItem := ⟨none, some "e1"⟩

/-- Manifest holding the single entity descriptor. -/
def exEntityManifest : Manifest := ⟨none, none, some [exEntityItem]⟩

/-- After delivering the entity manifest: success with one entity. -/
def exSEntity : LState := run_mjson_ok exS1 [] [] exEntityManifest

/-- Manifest with a single external texture `t1`. -/
def exTexManifest : Manifest := ⟨none, some [("t1", ⟨some "a.png"⟩)], none⟩

/-- After delivering the texture manifest: one image request in flight. -/
def exSTex : LState := run_mjson_ok exS1 [] [] exTexManifest

/-- The `t1` image request failed (`onerror`). -/
def exSTexDone : LState := run_image_fail exSTex [] []

/-- A mesh-register entry with neither `binary` nor `vertices`. -/
def exBadMesh : MeshEntry := ⟨none, false⟩

/-- A texture-register entry without `image`. -/
def exBadTex : TexEntry := ⟨none⟩

/-! ### Counting helpers -/

theorem countP_split (p : LTask → Bool) (l₁ l₂ : List LTask) (t : LTask) :
    (l₁ ++ t :: l₂).countP p = (l₁ ++ l₂).countP p + if p t then 1 else 0 := by
  cases h : p t <;>
    simp [List.countP_append, List.countP_cons, h, Nat.add_comm, Nat.add_assoc,
          Nat.add_left_comm]

theorem countP_pos (p : LTask → Bool) (l₁ l₂ : List LTask) {t : LTask}
    (ht : p t = true) : 1 ≤ (l₁ ++ t :: l₂).countP p := by
  rw [countP_split, ht]
  simp

theorem allSub_counts {ts : List LTask} (h : allSub ts) :
    ts.countP isSubTask = ts.length ∧ ts.countP isChainTask = 0 ∧
    ts.countP isCancelCbTask = 0 := by
  induction ts with
  | nil => simp
  | cons t rest ih =>
    obtain ⟨h1, h2, h3⟩ := h t (by simp)
    have hrest : allSub rest := fun x hx => h x (List.mem_cons_of_mem _ hx)
    obtain ⟨a, b, c⟩ := ih hrest
    simp [List.countP_cons, h1, h2, h3, a, b, c]

theorem allSub_append {ts us : List LTask} (h1 : allSub ts) (h2 : allSub us) :
    allSub (ts ++ us) := by
  intro t ht
  rcases List.mem_append.mp ht with h | h
  · exact h1 t h
  · exact h2 t h

/-! ### Reference-table lookup -/

theorem refLookup_nil (id : String) : refLookup [] id = none := rfl

theorem refLookup_cons_self (refs : List (String × RefObj)) (id : String)
    (v : RefObj) : refLookup ((id, v) :: refs) id = some v := by
  simp [refLookup, List.find?_cons]

theorem refLookup_cons_ne (refs : List (String × RefObj)) {id id' : String}
    (h : id' ≠ id) (v : RefObj) :
    refLookup ((id, v) :: refs) id' = refLookup refs id' := by
  have : (id == id') = false := by simpa using fun hh => h hh.symm
  simp [refLookup, List.find?_cons, this]

theorem refLookup_append (a b : List (String × RefObj)) (id : String) :
    refLookup (a ++ b) id = (refLookup a id).or (refLookup b id) := by
  unfold refLookup
  rw [List.find?_append]
  cases a.find? (fun p => p.1 == id) <;> simp

theorem refLookup_append_left {a : List (String × RefObj)}
    (b : List (String × RefObj)) {id : String} {v : RefObj}
    (h : refLookup a id = some v) : refLookup (a ++ b) id = some v := by
  rw [refLookup_append, h]
  rfl

/-! ### Entity loop -/

theorem addEntityStep_eq (s : LState) (item : EntityItem) :
    addEntityStep s item =
      { s with sceneEntities := s.sceneEntities ++ (buildEntity item).toList,
               references := entityWrite item ++ s.references } := by
  unfold addEntityStep entityWrite
  cases hb : buildEntity item with
  | none => simp
  | some e =>
    cases hid : item.id with
    | none => simp
    | some id =>
      cases h : (id == "") <;> simp [h, setReference]

theorem foldl_addEntityStep (items : List EntityItem) : ∀ s : LState,
    items.foldl addEntityStep s =
      { s with sceneEntities := s.sceneEntities ++ items.filterMap buildEntity,
               references := entityWrites items ++ s.references } := by
  induction items with
  | nil => intro s; simp [entityWrites]
  | cons item rest ih =>
    intro s
    rw [List.foldl_cons, addEntityStep_eq, ih]
    cases hb : buildEntity item <;>
      simp [entityWrites, List.filterMap_cons, hb, List.append_assoc]

theorem load_entity_list_eq {s : LState} {o : OScene} (h : s.oscene = some o) :
    load_entity_list s =
      { s with sceneEntities := s.sceneEntities ++ entityBuilds o.manifest,
               references := entityWritesM o.manifest ++ s.references } := by
  simp only [load_entity_list, entityBuilds, entityWritesM, h]
  rcases h2 : o.manifest.entity_list with _ | items <;>
    simp [h2, foldl_addEntityStep, ← h]

/-! ### The gated continuation -/

theorem postload_object_cancelled (s : LState) (h : s.cancelled = true) :
    postload_object s = s := by
  simp [postload_object, h]

theorem postload_object_eq (s : LState) (o : OScene) (ho : s.oscene = some o)
    (hc : s.cancelled = false) :
    postload_object s =
      { s with sceneEntities := s.sceneEntities ++ entityBuilds o.manifest,
               references := entityWritesM o.manifest ++ s.references,
               finished := true, registered := false,
               removeCalls := s.removeCalls + 1, nSucc := s.nSucc + 1 } := by
  unfold postload_object
  rw [load_entity_list_eq ho]
  simp [hc, success_callback]

/-! ### Register enumeration -/

theorem bumpN_zero (x : Option OScene) : bumpN 0 x = x := by
  cases x <;> simp [bumpN]

theorem bumpN_bumpN (m n : Nat) (x : Option OScene) :
    bumpN n (bumpN m x) = bumpN (m + n) x := by
  cases x with
  | none => rfl
  | some o =>
    simp [bumpN]
    omega

theorem bump_req_eq (s : LState) :
    bump_req s = { s with oscene := bumpN 1 s.oscene } := by
  unfold bump_req bumpN
  cases s.oscene <;> simp

theorem load_mesh_list_spec (entries : List (String × MeshEntry)) :
    ∃ ts wr, allSub ts ∧
      ts.length = entries.countP (fun p => truthyStr p.2.binary) ∧
      ∀ s : LState, load_mesh_list s entries =
        { s with pending := s.pending ++ ts,
                 references := wr ++ s.references,
                 oscene := bumpN ts.length s.oscene } := by
  induction entries with
  | nil =>
    refine ⟨[], [], by simp [allSub], by simp, ?_⟩
    intro s
    simp [load_mesh_list, bumpN_zero]
  | cons e rest ih =>
    obtain ⟨id, mesh⟩ := e
    obtain ⟨ts, wr, hsub, hlen, hrun⟩ := ih
    by_cases hb : truthyStr mesh.binary = true
    · refine ⟨LTask.meshFetch id :: ts, wr, ?_, ?_, ?_⟩
      · intro t ht
        rcases List.mem_cons.mp ht with h | h
        · subst h; exact ⟨rfl, rfl, rfl⟩
        · exact hsub t h
      · simp [List.countP_cons, hb, hlen]
      · intro s
        have he : load_mesh_entry s id mesh =
            { s with pending := s.pending ++ [LTask.meshFetch id],
                     oscene := bumpN 1 s.oscene } := by
          simp [load_mesh_entry, hb, load_mesh_binary, bump_req_eq]
        show load_mesh_list (load_mesh_entry s id mesh) rest = _
        rw [hrun, he]
        simp [bumpN_bumpN, List.append_assoc, Nat.add_comm]
    · have hbf : truthyStr mesh.binary = false := by
        cases h : truthyStr mesh.binary
        · rfl
        · exact absurd h hb
      by_cases hv : mesh.vertices = true
      · refine ⟨ts, wr ++ [(id, RefObj.meshInline mesh)], hsub, ?_, ?_⟩
        · simp [List.countP_cons, hbf, hlen]
        · intro s
          have he : load_mesh_entry s id mesh =
              { s with references := (id, RefObj.meshInline mesh) :: s.references } := by
            simp [load_mesh_entry, hbf, hv, setReference]
          show load_mesh_list (load_mesh_entry s id mesh) rest = _
          rw [hrun, he]
          simp [List.append_assoc]
      · have hvf : mesh.vertices = false := by
          cases h : mesh.vertices
          · rfl
          · exact absurd h hv
        refine ⟨ts, wr, hsub, ?_, ?_⟩
        · simp [List.countP_cons, hbf, hlen]
        · intro s
          have he : load_mesh_entry s id mesh = s := by
            simp [load_mesh_entry, hbf, hvf]
          show load_mesh_list (load_mesh_entry s id mesh) rest = _
          rw [he, hrun]

theorem load_mesh_register_spec (mr : Option (List (String × MeshEntry))) :
    ∃ ts wr, allSub ts ∧ ts.length = meshDispatch mr ∧
      ∀ s : LState, load_mesh_register s mr =
        { s with pending := s.pending ++ ts,
                 references := wr ++ s.references,
                 oscene := bumpN ts.length s.oscene } := by
  cases mr with
  | none =>
    refine ⟨[], [], by simp [allSub], by simp [meshDispatch], ?_⟩
    intro s
    simp [load_mesh_register, bumpN_zero]
  | some entries =>
    obtain ⟨ts, wr, h1, h2, h3⟩ := load_mesh_list_spec entries
    exact ⟨ts, wr, h1, by simpa [meshDispatch] using h2, h3⟩

theorem load_texture_list_spec (entries : List (String × TexEntry)) :
    ∃ ts, allSub ts ∧
      ts.length = entries.countP (fun p => truthyStr p.2.image) ∧
      ∀ s : LState, load_texture_list s entries =
        { s with pending := s.pending ++ ts,
                 oscene := bumpN ts.length s.oscene } := by
  induction entries with
  | nil =>
    refine ⟨[], by simp [allSub], by simp, ?_⟩
    intro s
    simp [load_texture_list, bumpN_zero]
  | cons e rest ih =>
    obtain ⟨id, tex⟩ := e
    obtain ⟨ts, hsub, hlen, hrun⟩ := ih
    by_cases hb : truthyStr tex.image = true
    · refine ⟨LTask.imageLoad id :: ts, ?_, ?_, ?_⟩
      · intro t ht
        rcases List.mem_cons.mp ht with h | h
        · subst h; exact ⟨rfl, rfl, rfl⟩
        · exact hsub t h
      · simp [List.countP_cons, hb, hlen]
      · intro s
        have he : load_texture_entry s id tex =
            { s with pending := s.pending ++ [LTask.imageLoad id],
                     oscene := bumpN 1 s.oscene } := by
          simp [load_texture_entry, hb, load_texture_image, bump_req_eq]
        show load_texture_list (load_texture_entry s id tex) rest = _
        rw [hrun, he]
        simp [bumpN_bumpN, List.append_assoc, Nat.add_comm]
    · have hbf : truthyStr tex.image = false := by
        cases h : truthyStr tex.image
        · rfl
        · exact absurd h hb
      refine ⟨ts, hsub, ?_, ?_⟩
      · simp [List.countP_cons, hbf, hlen]
      · intro s
        have he : load_texture_entry s id tex = s := by
          simp [load_texture_entry, hbf]
        show load_texture_list (load_texture_entry s id tex) rest = _
        rw [he, hrun]

theorem load_texture_register_spec (tr : Option (List (String × TexEntry))) :
    ∃ ts, allSub ts ∧ ts.length = texDispatch tr ∧
      ∀ s : LState, load_texture_register s tr =
        { s with pending := s.pending ++ ts,
                 oscene := bumpN ts.length s.oscene } := by
  cases tr with
  | none =>
    refine ⟨[], by simp [allSub], by simp [texDispatch], ?_⟩
    intro s
    simp [load_texture_register, bumpN_zero]
  | some entries =>
    obtain ⟨ts, h1, h2, h3⟩ := load_texture_list_spec entries
    exact ⟨ts, h1, by simpa [texDispatch] using h2, h3⟩

/-! ### `_load_object` -/

theorem load_object_unfold (m : Manifest) (s : LState) :
    load_object m s =
      (fun s2 =>
        (fun s3 : LState =>
          { s3 with oscene := s3.oscene.map (fun o => { o with req_ended := true }) })
        (if req_count_of s2 == 0 then postload_object s2 else s2))
      (load_texture_register
        (load_mesh_register
          { s with oscene := some { manifest := m, req_count := 0, req_ended := false } }
          m.mesh_register)
        m.texture_register) := rfl

theorem load_object_tail (s : LState) (m : Manifest) (P : List LTask)
    (R : List (String × RefObj)) (c : Nat) :
    (fun s3 : LState =>
      { s3 with oscene := s3.oscene.map (fun o => { o with req_ended := true }) })
      (if req_count_of (midState s m P R c) == 0 then
        postload_object (midState s m P R c)
      else midState s m P R c) =
    (if c = 0 ∧ s.cancelled = false then
      { s with pending := P, references := entityWritesM m ++ R,
               sceneEntities := s.sceneEntities ++ entityBuilds m,
               oscene := some ⟨m, (c : Int), true⟩,
               finished := true, registered := false,
               removeCalls := s.removeCalls + 1, nSucc := s.nSucc + 1 }
    else
      { s with pending := P, references := R,
               oscene := some ⟨m, (c : Int), true⟩ }) := by
  by_cases hz : c = 0
  · subst hz
    cases hc : s.cancelled
    · rw [postload_object_eq (midState s m P R 0) ⟨m, ((0 : Nat) : Int), false⟩ rfl
        (show (midState s m P R 0).cancelled = false from hc)]
      simp [midState, req_count_of, hc, entityBuilds, entityWritesM]
    · rw [postload_object_cancelled (midState s m P R 0)
        (show (midState s m P R 0).cancelled = true from hc)]
      simp [midState, req_count_of, hc]
  · have hne : (((c : Nat) : Int) == 0) = false := by
      simp only [beq_eq_false_iff_ne, ne_eq]
      exact_mod_cast hz
    simp [midState, req_count_of, hne, hz]

theorem load_object_spec (m : Manifest) (s : LState) :
    ∃ ts wr, allSub ts ∧ ts.length = dispatchCount m ∧
      load_object m s =
        if ts.length = 0 ∧ s.cancelled = false then
          { s with pending := s.pending ++ ts,
                   references := entityWritesM m ++ wr ++ s.references,
                   sceneEntities := s.sceneEntities ++ entityBuilds m,
                   oscene := some { manifest := m, req_count := (ts.length : Int),
                                    req_ended := true },
                   finished := true, registered := false,
                   removeCalls := s.removeCalls + 1, nSucc := s.nSucc + 1 }
        else
          { s with pending := s.pending ++ ts,
                   references := wr ++ s.references,
                   oscene := some { manifest := m, req_count := (ts.length : Int),
                                    req_ended := true } } := by
  obtain ⟨ts1, wr1, hsub1, hlen1, hrun1p⟩ := load_mesh_register_spec m.mesh_register
  obtain ⟨ts2, hsub2, hlen2, hrun2p⟩ := load_texture_register_spec m.texture_register
  have hrun1 := hrun1p
    { s with oscene := some { manifest := m, req_count := 0, req_ended := false } }
  have hrun2 := hrun2p
    (load_mesh_register
      { s with oscene := some { manifest := m, req_count := 0, req_ended := false } }
      m.mesh_register)
  have hmid : load_texture_register
      (load_mesh_register
        { s with oscene := some { manifest := m, req_count := 0, req_ended := false } }
        m.mesh_register) m.texture_register =
      midState s m (s.pending ++ (ts1 ++ ts2)) (wr1 ++ s.references)
        (ts1.length + ts2.length) := by
    rw [hrun2, hrun1]
    simp [midState, bumpN, List.append_assoc]
  refine ⟨ts1 ++ ts2, wr1, allSub_append hsub1 hsub2,
    by simp [dispatchCount, hlen1, hlen2], ?_⟩
  have hstep : load_object m s =
      (fun s3 : LState =>
        { s3 with oscene := s3.oscene.map (fun o => { o with req_ended := true }) })
      (if req_count_of (midState s m (s.pending ++ (ts1 ++ ts2)) (wr1 ++ s.references)
            (ts1.length + ts2.length)) == 0 then
        postload_object (midState s m (s.pending ++ (ts1 ++ ts2)) (wr1 ++ s.references)
          (ts1.length + ts2.length))
      else midState s m (s.pending ++ (ts1 ++ ts2)) (wr1 ++ s.references)
        (ts1.length + ts2.length)) := by
    rw [load_object_unfold, hmid]
  rw [hstep, load_object_tail]
  have hlen : (ts1 ++ ts2).length = ts1.length + ts2.length := List.length_append ts1 ts2
  by_cases hz : ts1.length + ts2.length = 0
  · simp [hz, hlen, List.append_assoc]
  · simp [hz, hlen, List.append_assoc]

/-! ### `_postload_object_ifNoReq` -/

theorem postload_object_ifNoReq_eq {s : LState} {o : OScene}
    (h : s.oscene = some o) :
    postload_object_ifNoReq s =
      (if o.req_count - 1 == 0 && o.req_ended then
        postload_object { s with oscene := some { o with req_count := o.req_count - 1 } }
      else { s with oscene := some { o with req_count := o.req_count - 1 } }) := by
  simp [postload_object_ifNoReq, decr_req, h]

/-! ### Invariant machinery -/

theorem joinReadyB_congr {s t : LState} (h : t.oscene = s.oscene) :
    joinReadyB t = joinReadyB s := by
  unfold joinReadyB
  rw [h]

theorem inv_congr {s : LState} (h : Inv s) (t : LState)
    (h1 : t.references = s.references) (h2 : t.cancelled = s.cancelled)
    (h3 : t.finished = s.finished) (h4 : t.registered = s.registered)
    (h5 : t.addCalls = s.addCalls) (h6 : t.removeCalls = s.removeCalls)
    (h7 : t.sceneEntities = s.sceneEntities) (h8 : t.nSucc = s.nSucc)
    (h9 : t.nFail = s.nFail) (h10 : t.nCanc = s.nCanc)
    (h11 : t.oscene = s.oscene)
    (c1 : t.pending.countP isSubTask = s.pending.countP isSubTask)
    (c2 : t.pending.countP isChainTask = s.pending.countP isChainTask)
    (c3 : t.pending.countP isCancelCbTask = s.pending.countP isCancelCbTask) :
    Inv t := by
  have hjr : joinReadyB t = joinReadyB s := joinReadyB_congr h11
  refine ⟨?_, ?_, ?_, ?_, ?_, ?_, ?_, ?_, ?_, ?_, ?_, ?_, ?_, ?_, ?_, ?_, ?_,
    ?_, ?_, ?_⟩
  · rw [c2]; exact h.chain_le
  · rw [c2, h11]; exact h.chain0
  · rw [h11, c1]; exact h.cnt
  · rw [h11, c1, h1, h7, h8]; exact h.pre
  · rw [h8]; exact h.succ_le
  · rw [h8, hjr]; exact h.succ_jr
  · rw [hjr, h2, h8]; exact h.jr_succ
  · rw [h9]; exact h.fail_le
  · rw [h9, h11, c2]; exact h.fail_pre
  · rw [h3, h8, h9]; exact h.fin_iff
  · rw [h10]; exact h.canc_le
  · rw [c3]; exact h.ccb_le
  · rw [h2, c3, h10]; exact h.not_canc
  · rw [h10, c3, h3]; exact h.canc_done
  · rw [h6, h8, h9, h2]; exact h.rem_eq
  · rw [h4, h6]; exact h.reg_iff
  · rw [h5]; exact h.add_eq
  · rw [h8, h7]; exact h.ents0
  · rw [h8, h7, h11]; exact h.ents_built
  · rw [h8, h11, h1]; exact h.ents_refs

theorem chain_not_other {t : LTask} (h : isChainTask t = true) :
    isSubTask t = false ∧ isCancelCbTask t = false := by
  cases t <;> simp_all [isChainTask, isSubTask, isCancelCbTask]

theorem sub_not_other {t : LTask} (h : isSubTask t = true) :
    isChainTask t = false ∧ isCancelCbTask t = false := by
  cases t <;> simp_all [isChainTask, isSubTask, isCancelCbTask]

theorem ccb_not_other {t : LTask} (h : isCancelCbTask t = true) :
    isSubTask t = false ∧ isChainTask t = false := by
  cases t <;> simp_all [isChainTask, isSubTask, isCancelCbTask]

/-- Facts available when a manifest-chain task is pending. -/
theorem inv_chain_task {s : LState} (h : Inv s) {l₁ l₂ : List LTask} {t : LTask}
    (hp : s.pending = l₁ ++ t :: l₂) (ht : isChainTask t = true) :
    s.oscene = none ∧ (l₁ ++ l₂).countP isChainTask = 0 ∧ s.nFail = 0 ∧
    s.nSucc = 0 ∧
    s.pending.countP isSubTask = (l₁ ++ l₂).countP isSubTask ∧
    s.pending.countP isCancelCbTask = (l₁ ++ l₂).countP isCancelCbTask := by
  obtain ⟨hsub, hccb⟩ := chain_not_other ht
  have hcnt : s.pending.countP isChainTask = (l₁ ++ l₂).countP isChainTask + 1 := by
    rw [hp, countP_split, ht]
    simp
  have hone : (l₁ ++ l₂).countP isChainTask = 0 := by
    have := h.chain_le
    omega
  have hosc : s.oscene = none := by
    cases ho : s.oscene with
    | none => rfl
    | some o =>
      have := h.chain0 (by rw [ho]; rfl)
      omega
  have hnf : s.nFail = 0 := by
    have hle := h.fail_le
    rcases Nat.lt_or_ge s.nFail 1 with hlt | hge
    · omega
    · have : s.nFail = 1 := by omega
      obtain ⟨-, hzero⟩ := h.fail_pre this
      omega
  have hns : s.nSucc = 0 := by
    obtain ⟨hc0, -, -, hn⟩ := h.pre hosc
    exact hn
  refine ⟨hosc, hone, hnf, hns, ?_, ?_⟩
  · rw [hp, countP_split, hsub]
    simp
  · rw [hp, countP_split, hccb]
    simp

/-- Facts available when a sub-resource task is pending. -/
theorem inv_sub_task {s : LState} (h : Inv s) {l₁ l₂ : List LTask} {t : LTask}
    (hp : s.pending = l₁ ++ t :: l₂) (ht : isSubTask t = true) :
    ∃ o, s.oscene = some o ∧
      o.req_count = (((l₁ ++ l₂).countP isSubTask + 1 : Nat) : Int) ∧
      o.req_ended = true ∧ s.nSucc = 0 ∧ s.nFail = 0 ∧
      s.pending.countP isChainTask = (l₁ ++ l₂).countP isChainTask ∧
      s.pending.countP isCancelCbTask = (l₁ ++ l₂).countP isCancelCbTask := by
  obtain ⟨hchain, hccb⟩ := sub_not_other ht
  have hcnt : s.pending.countP isSubTask = (l₁ ++ l₂).countP isSubTask + 1 := by
    rw [hp, countP_split, ht]
    simp
  cases ho : s.oscene with
  | none =>
    obtain ⟨hc0, -, -, -⟩ := h.pre ho
    omega
  | some o =>
    obtain ⟨hrc, hre⟩ := h.cnt o ho
    have hns : s.nSucc = 0 := by
      have hle := h.succ_le
      rcases Nat.lt_or_ge s.nSucc 1 with hlt | hge
      · omega
      · have h1 : s.nSucc = 1 := by omega
        have hjr := h.succ_jr h1
        simp [joinReadyB, ho] at hjr
        have h0 : o.req_count = 0 := hjr.1
        rw [hrc] at h0
        omega
    have hnf : s.nFail = 0 := by
      have hle := h.fail_le
      rcases Nat.lt_or_ge s.nFail 1 with hlt | hge
      · omega
      · have h1 : s.nFail = 1 := by omega
        obtain ⟨ho2, -⟩ := h.fail_pre h1
        rw [ho] at ho2
        exact absurd ho2 (by simp)
    refine ⟨o, rfl, ?_, hre, hns, hnf, ?_, ?_⟩
    · rw [hrc, hcnt]
    · rw [hp, countP_split, hchain]
      simp
    · rw [hp, countP_split, hccb]
      simp

/-- Facts available when the cancel-callback task is pending. -/
theorem inv_ccb_task {s : LState} (h : Inv s) {l₁ l₂ : List LTask}
    (hp : s.pending = l₁ ++ LTask.cancelCb :: l₂) :
    s.cancelled = true ∧ (l₁ ++ l₂).countP isCancelCbTask = 0 ∧ s.nCanc = 0 ∧
    s.pending.countP isSubTask = (l₁ ++ l₂).countP isSubTask ∧
    s.pending.countP isChainTask = (l₁ ++ l₂).countP isChainTask := by
  have hcnt : s.pending.countP isCancelCbTask =
      (l₁ ++ l₂).countP isCancelCbTask + 1 := by
    rw [hp, countP_split]
    rfl
  have hc : s.cancelled = true := by
    cases hc : s.cancelled
    · obtain ⟨h0, -⟩ := h.not_canc hc
      omega
    · rfl
  have hone : (l₁ ++ l₂).countP isCancelCbTask = 0 := by
    have := h.ccb_le
    omega
  have hnc : s.nCanc = 0 := by
    have hle := h.canc_le
    rcases Nat.lt_or_ge s.nCanc 1 with hlt | hge
    · omega
    · have h1 : s.nCanc = 1 := by omega
      obtain ⟨h0, -⟩ := h.canc_done h1
      omega
  refine ⟨hc, hone, hnc, ?_, ?_⟩
  · rw [hp, countP_split]
    simp [isSubTask]
  · rw [hp, countP_split]
    simp [isChainTask]

/-- Replacing one pending task by another of the same classification
preserves the invariant. -/
theorem inv_pending_replace {s : LState} (h : Inv s) {l₁ l₂ : List LTask}
    {t : LTask} (hp : s.pending = l₁ ++ t :: l₂) (u : LTask)
    (e1 : isSubTask u = isSubTask t) (e2 : isChainTask u = isChainTask t)
    (e3 : isCancelCbTask u = isCancelCbTask t) :
    Inv { s with pending := l₁ ++ u :: l₂ } := by
  refine inv_congr h { s with pending := l₁ ++ u :: l₂ } rfl rfl rfl rfl rfl rfl
    rfl rfl rfl rfl rfl ?_ ?_ ?_
  · show (l₁ ++ u :: l₂).countP isSubTask = s.pending.countP isSubTask
    rw [hp, countP_split, countP_split, e1]
  · show (l₁ ++ u :: l₂).countP isChainTask = s.pending.countP isChainTask
    rw [hp, countP_split, countP_split, e2]
  · show (l₁ ++ u :: l₂).countP isCancelCbTask = s.pending.countP isCancelCbTask
    rw [hp, countP_split, countP_split, e3]

/-- `_postload_object_ifNoReq` on a state whose parsed object is explicit. -/
theorem ifNoReq_spec (s : LState) (m : Manifest) (P : List LTask)
    (R : List (String × RefObj)) (c : Int) :
    postload_object_ifNoReq { s with pending := P, references := R, oscene := some ⟨m, c, true⟩ } =
    (if c - 1 = 0 ∧ s.cancelled = false then
      { s with pending := P, references := entityWritesM m ++ R,
               sceneEntities := s.sceneEntities ++ entityBuilds m,
               oscene := some ⟨m, c - 1, true⟩,
               finished := true, registered := false,
               removeCalls := s.removeCalls + 1, nSucc := s.nSucc + 1 }
    else
      { s with pending := P, references := R,
               oscene := some ⟨m, c - 1, true⟩ }) := by
  by_cases hz : c - 1 = 0
  · cases hc : s.cancelled
    · have hpost := postload_object_eq
        { s with pending := P, references := R, oscene := some ⟨m, c - 1, true⟩ }
        ⟨m, c - 1, true⟩ rfl (show s.cancelled = false from hc)
      simp only [hz, hc] at hpost
      simp [postload_object_ifNoReq, decr_req, hz, hc, hpost]
    · have hpost := postload_object_cancelled
        { s with pending := P, references := R, oscene := some ⟨m, c - 1, true⟩ }
        (show s.cancelled = true from hc)
      simp only [hz, hc] at hpost
      simp [postload_object_ifNoReq, decr_req, hz, hc, hpost]
  · have hne : ((c - 1 : Int) == 0) = false := by
      simp only [beq_eq_false_iff_ne, ne_eq]
      exact hz
    simp [postload_object_ifNoReq, decr_req, hne, hz]

/-- The invariant holds of the state produced by a successful join:
entity list built, success callback fired. -/
theorem inv_success_record (s : LState) (m : Manifest) (P : List LTask)
    (R : List (String × RefObj)) (ci : Int) (h : Inv s)
    (hc : s.cancelled = false) (hns : s.nSucc = 0) (hnf : s.nFail = 0)
    (hcz : ci = 0)
    (hsub : P.countP isSubTask = 0) (hchain : P.countP isChainTask = 0)
    (hccb : P.countP isCancelCbTask = 0) :
    Inv { s with pending := P, references := entityWritesM m ++ R,
                 sceneEntities := s.sceneEntities ++ entityBuilds m,
                 oscene := some ⟨m, ci, true⟩,
                 finished := true, registered := false,
                 removeCalls := s.removeCalls + 1, nSucc := s.nSucc + 1 } := by
  have hents : s.sceneEntities = [] := h.ents0 hns
  obtain ⟨hccbs, hnc⟩ := h.not_canc hc
  have hrem : s.removeCalls = 0 := by
    have hr := h.rem_eq
    rw [hc] at hr
    simp [hns, hnf] at hr
    exact hr
  refine ⟨?_, ?_, ?_, ?_, ?_, ?_, ?_, ?_, ?_, ?_, ?_, ?_, ?_, ?_, ?_, ?_, ?_,
    ?_, ?_, ?_⟩
  · show P.countP isChainTask ≤ 1
    omega
  · intro _
    exact hchain
  · intro o ho
    injection ho with ho2
    subst ho2
    exact ⟨by simp [hsub, hcz], rfl⟩
  · intro hnone
    exact absurd hnone (by simp)
  · show s.nSucc + 1 ≤ 1
    omega
  · intro _
    show joinReadyB _ = true
    simp [joinReadyB, hcz]
  · intro _
    right
    show s.nSucc + 1 = 1
    omega
  · show s.nFail ≤ 1
    omega
  · intro h1
    exact absurd h1 (by simp [hnf])
  · show true = true ↔ 1 ≤ s.nSucc + 1 + s.nFail
    exact ⟨fun _ => by omega, fun _ => rfl⟩
  · show s.nCanc ≤ 1
    omega
  · show P.countP isCancelCbTask ≤ 1
    omega
  · intro _
    exact ⟨hccb, hnc⟩
  · intro h1
    exact absurd h1 (by simp [hnc])
  · show s.removeCalls + 1 = s.nSucc + 1 + s.nFail + (if s.cancelled then 1 else 0)
    rw [hc]
    simp
    omega
  · show false = decide (s.removeCalls + 1 = 0)
    simp
  · exact h.add_eq
  · intro h1
    exact absurd h1 (by simp)
  · intro _ o ho
    injection ho with ho2
    subst ho2
    show s.sceneEntities ++ entityBuilds m = entityBuilds m
    rw [hents]
    rfl
  · intro _ o ho id v hv
    injection ho with ho2
    subst ho2
    exact refLookup_append_left R hv

/-- The invariant holds of a mid-flight state with explicit parsed object
(registration over, `c` sub-resource fetches outstanding). -/
theorem inv_mid_record (s : LState) (m : Manifest) (P : List LTask)
    (R : List (String × RefObj)) (ci : Int) (h : Inv s)
    (hns : s.nSucc = 0) (hnf : s.nFail = 0)
    (hsub : (P.countP isSubTask : Int) = ci) (hchain : P.countP isChainTask = 0)
    (hccb : P.countP isCancelCbTask = s.pending.countP isCancelCbTask)
    (hjr : ci = 0 → s.cancelled = true) :
    Inv { s with pending := P, references := R,
                 oscene := some ⟨m, ci, true⟩ } := by
  have hents : s.sceneEntities = [] := h.ents0 hns
  refine ⟨?_, ?_, ?_, ?_, ?_, ?_, ?_, ?_, ?_, ?_, ?_, ?_, ?_, ?_, ?_, ?_, ?_,
    ?_, ?_, ?_⟩
  · show P.countP isChainTask ≤ 1
    omega
  · intro _
    exact hchain
  · intro o ho
    injection ho with ho2
    subst ho2
    exact ⟨hsub.symm, rfl⟩
  · intro hnone
    exact absurd hnone (by simp)
  · show s.nSucc ≤ 1
    omega
  · intro h1
    exact absurd h1 (by simp [hns])
  · intro hjr2
    have hci : ci = 0 := by
      simpa [joinReadyB] using hjr2
    left
    exact hjr hci
  · show s.nFail ≤ 1
    omega
  · intro h1
    exact absurd h1 (by simp [hnf])
  · show s.finished = true ↔ 1 ≤ s.nSucc + s.nFail
    rw [h.fin_iff]
  · exact h.canc_le
  · show P.countP isCancelCbTask ≤ 1
    rw [hccb]
    exact h.ccb_le
  · intro hcf
    obtain ⟨ha, hb⟩ := h.not_canc hcf
    exact ⟨by rw [hccb, ha], hb⟩
  · intro h1
    obtain ⟨ha, hb⟩ := h.canc_done h1
    exact ⟨by rw [hccb, ha], hb⟩
  · exact h.rem_eq
  · exact h.reg_iff
  · exact h.add_eq
  · intro _
    exact hents
  · intro h1
    exact absurd h1 (by simp [hns])
  · intro h1
    exact absurd h1 (by simp [hns])

/-- Consuming the pending manifest-chain task (with no other effect)
preserves the invariant. -/
theorem inv_drop_chain {s : LState} (h : Inv s) {l₁ l₂ : List LTask}
    {t : LTask} (hp : s.pending = l₁ ++ t :: l₂) (ht : isChainTask t = true) :
    Inv { s with pending := l₁ ++ l₂ } := by
  obtain ⟨hosc, hone, hnf, hns, hcc, hbb⟩ := inv_chain_task h hp ht
  obtain ⟨hsub0, hrefs, hents, -⟩ := h.pre hosc
  have hccb0 := h.ccb_le
  refine ⟨?_, ?_, ?_, ?_, ?_, ?_, ?_, ?_, ?_, ?_, ?_, ?_, ?_, ?_, ?_, ?_, ?_,
    ?_, ?_, ?_⟩
  · show (l₁ ++ l₂).countP isChainTask ≤ 1
    omega
  · intro _
    exact hone
  · intro o ho
    exact absurd ho (by simp [hosc])
  · intro _
    refine ⟨?_, hrefs, hents, hns⟩
    show (l₁ ++ l₂).countP isSubTask = 0
    omega
  · show s.nSucc ≤ 1
    omega
  · intro h1
    exact absurd h1 (by simp [hns])
  · intro hjr
    simp [joinReadyB, hosc] at hjr
  · show s.nFail ≤ 1
    omega
  · intro h1
    exact absurd h1 (by simp [hnf])
  · exact h.fin_iff
  · exact h.canc_le
  · show (l₁ ++ l₂).countP isCancelCbTask ≤ 1
    omega
  · intro hcf
    obtain ⟨ha, hb⟩ := h.not_canc hcf
    refine ⟨?_, hb⟩
    show (l₁ ++ l₂).countP isCancelCbTask = 0
    omega
  · intro h1
    obtain ⟨ha, hb⟩ := h.canc_done h1
    refine ⟨?_, hb⟩
    show (l₁ ++ l₂).countP isCancelCbTask = 0
    omega
  · exact h.rem_eq
  · exact h.reg_iff
  · exact h.add_eq
  · intro _
    exact hents
  · intro h1
    exact absurd h1 (by simp [hns])
  · intro h1
    exact absurd h1 (by simp [hns])

/-- Replacing a pending sub-resource task and writing one reference-table
entry preserves the invariant (the `_setReference` in the mesh chain). -/
theorem inv_sub_replace_write {s : LState} (h : Inv s) {l₁ l₂ : List LTask}
    {t : LTask} (hp : s.pending = l₁ ++ t :: l₂) (ht : isSubTask t = true)
    (u : LTask) (hu : isSubTask u = true) (w : String × RefObj) :
    Inv { s with pending := l₁ ++ u :: l₂,
                 references := w :: s.references } := by
  obtain ⟨o, ho, hrc, hre, hns, hnf, hcc, hbb⟩ := inv_sub_task h hp ht
  obtain ⟨huc, hub⟩ := sub_not_other hu
  obtain ⟨htc, htb⟩ := sub_not_other ht
  have hsub_eq : (l₁ ++ u :: l₂).countP isSubTask =
      s.pending.countP isSubTask := by
    rw [hp, countP_split, countP_split, hu, ht]
  have hchain_eq : (l₁ ++ u :: l₂).countP isChainTask =
      s.pending.countP isChainTask := by
    rw [hp, countP_split, countP_split, huc, htc]
  have hccb_eq : (l₁ ++ u :: l₂).countP isCancelCbTask =
      s.pending.countP isCancelCbTask := by
    rw [hp, countP_split, countP_split, hub, htb]
  have hch := h.chain_le
  have hcb := h.ccb_le
  refine ⟨?_, ?_, ?_, ?_, ?_, ?_, ?_, ?_, ?_, ?_, ?_, ?_, ?_, ?_, ?_, ?_, ?_,
    ?_, ?_, ?_⟩
  · show (l₁ ++ u :: l₂).countP isChainTask ≤ 1
    omega
  · intro h1
    have := h.chain0 h1
    show (l₁ ++ u :: l₂).countP isChainTask = 0
    omega
  · intro o' ho'
    have hcnt := h.cnt o' ho'
    refine ⟨?_, hcnt.2⟩
    show o'.req_count = ((l₁ ++ u :: l₂).countP isSubTask : Int)
    rw [hsub_eq]
    exact hcnt.1
  · intro hnone
    exact absurd hnone (by simp [ho])
  · show s.nSucc ≤ 1
    omega
  · intro h1
    exact absurd h1 (by simp [hns])
  · intro hjr
    simp [joinReadyB, ho, hrc] at hjr
    omega
  · show s.nFail ≤ 1
    omega
  · intro h1
    exact absurd h1 (by simp [hnf])
  · exact h.fin_iff
  · exact h.canc_le
  · show (l₁ ++ u :: l₂).countP isCancelCbTask ≤ 1
    omega
  · intro hcf
    obtain ⟨ha, hb⟩ := h.not_canc hcf
    refine ⟨?_, hb⟩
    show (l₁ ++ u :: l₂).countP isCancelCbTask = 0
    omega
  · intro h1
    obtain ⟨ha, hb⟩ := h.canc_done h1
    refine ⟨?_, hb⟩
    show (l₁ ++ u :: l₂).countP isCancelCbTask = 0
    omega
  · exact h.rem_eq
  · exact h.reg_iff
  · exact h.add_eq
  · intro _
    exact h.ents0 hns
  · intro h1
    exact absurd h1 (by simp [hns])
  · intro h1
    exact absurd h1 (by simp [hns])

/-- Finishing one sub-resource (success or failure path) preserves the
invariant: the task is consumed, up to one table write `wr` happens, the
counter is decremented, and the join may fire. -/
theorem inv_subFin {s : LState} (h : Inv s) {l₁ l₂ : List LTask} {t : LTask}
    (hp : s.pending = l₁ ++ t :: l₂) (ht : isSubTask t = true)
    (wr : List (String × RefObj)) :
    Inv (postload_object_ifNoReq
      { s with pending := l₁ ++ l₂, references := wr ++ s.references }) := by
  obtain ⟨o, ho, hrc, hre, hns, hnf, hcc, hbb⟩ := inv_sub_task h hp ht
  obtain ⟨om, oc, oe⟩ := o
  have hre' : oe = true := hre
  subst hre'
  have ho' : s.oscene = some ⟨om, oc, true⟩ := ho
  have hchain0 : (l₁ ++ l₂).countP isChainTask = 0 := by
    have h1 := h.chain0 (by rw [ho']; rfl)
    omega
  have hrc' : oc = (((l₁ ++ l₂).countP isSubTask + 1 : Nat) : Int) := hrc
  have hstate : ({ s with pending := l₁ ++ l₂, references := wr ++ s.references } : LState) =
      { s with pending := l₁ ++ l₂, references := wr ++ s.references,
               oscene := some ⟨om, oc, true⟩ } := by
    rw [← ho']
  rw [hstate, ifNoReq_spec]
  split
  · rename_i hcond
    obtain ⟨hz, hc⟩ := hcond
    refine inv_success_record s om (l₁ ++ l₂) (wr ++ s.references) (oc - 1)
      h hc hns hnf hz ?_ hchain0 ?_
    · omega
    · obtain ⟨ha, -⟩ := h.not_canc hc
      omega
  · rename_i hcond
    refine inv_mid_record s om (l₁ ++ l₂) (wr ++ s.references) (oc - 1)
      h hns hnf (by omega) hchain0 hbb.symm ?_
    intro h0
    cases hcan : s.cancelled
    · exact absurd ⟨h0, hcan⟩ hcond
    · rfl

/-- `cancel()` preserves the invariant. -/
theorem inv_user_cancel {s : LState} (h : Inv s) : Inv (cancel s) := by
  cases hc : s.cancelled
  · have hcs : cancel s =
        { s with aborted := true, cancelled := true, registered := false,
                 removeCalls := s.removeCalls + 1,
                 pending := s.pending ++ [LTask.cancelCb] } := by
      simp [cancel, hc]
    rw [hcs]
    obtain ⟨hccb0, hnc0⟩ := h.not_canc hc
    have esub : (s.pending ++ [LTask.cancelCb]).countP isSubTask =
        s.pending.countP isSubTask := by
      simp [List.countP_append, List.countP_cons, isSubTask]
    have echain : (s.pending ++ [LTask.cancelCb]).countP isChainTask =
        s.pending.countP isChainTask := by
      simp [List.countP_append, List.countP_cons, isChainTask]
    have eccb : (s.pending ++ [LTask.cancelCb]).countP isCancelCbTask =
        s.pending.countP isCancelCbTask + 1 := by
      simp [List.countP_append, List.countP_cons, isCancelCbTask]
    have hch := h.chain_le
    refine ⟨?_, ?_, ?_, ?_, ?_, ?_, ?_, ?_, ?_, ?_, ?_, ?_, ?_, ?_, ?_, ?_,
      ?_, ?_, ?_, ?_⟩
    · show (s.pending ++ [LTask.cancelCb]).countP isChainTask ≤ 1
      omega
    · intro h1
      have := h.chain0 h1
      show (s.pending ++ [LTask.cancelCb]).countP isChainTask = 0
      omega
    · intro o ho
      have hcnt := h.cnt o ho
      refine ⟨?_, hcnt.2⟩
      show o.req_count = ((s.pending ++ [LTask.cancelCb]).countP isSubTask : Int)
      rw [esub]
      exact hcnt.1
    · intro hnone
      obtain ⟨a, b, c, d⟩ := h.pre hnone
      refine ⟨?_, b, c, d⟩
      show (s.pending ++ [LTask.cancelCb]).countP isSubTask = 0
      omega
    · exact h.succ_le
    · intro h1
      exact h.succ_jr h1
    · intro _
      left
      rfl
    · exact h.fail_le
    · intro h1
      obtain ⟨a, b⟩ := h.fail_pre h1
      refine ⟨a, ?_⟩
      show (s.pending ++ [LTask.cancelCb]).countP isChainTask = 0
      omega
    · exact h.fin_iff
    · exact h.canc_le
    · show (s.pending ++ [LTask.cancelCb]).countP isCancelCbTask ≤ 1
      omega
    · intro hcf
      exact absurd hcf (by simp)
    · intro h1
      exact absurd h1 (by simp [hnc0])
    · have hr := h.rem_eq
      rw [hc] at hr
      simp at hr
      show s.removeCalls + 1 = s.nSucc + s.nFail + (if true = true then 1 else 0)
      simp
      omega
    · show false = decide (s.removeCalls + 1 = 0)
      simp
    · exact h.add_eq
    · exact h.ents0
    · exact h.ents_built
    · exact h.ents_refs
  · have hcs : cancel s = s := by
      simp [cancel, hc]
    rw [hcs]
    exact h

/-- The scheduled `_cancel_callback` microtask preserves the invariant. -/
theorem inv_run_cancel_cb {s : LState} (h : Inv s) {l₁ l₂ : List LTask}
    (hp : s.pending = l₁ ++ LTask.cancelCb :: l₂) :
    Inv (run_cancel_cb s l₁ l₂) := by
  obtain ⟨hc, hone, hnc, hsubeq, hchaineq⟩ := inv_ccb_task h hp
  have hch := h.chain_le
  cases hf : s.finished
  · have hrun : run_cancel_cb s l₁ l₂ =
        { s with pending := l₁ ++ l₂, nCanc := s.nCanc + 1 } := by
      simp [run_cancel_cb, cancel_callback, hf]
    rw [hrun]
    refine ⟨?_, ?_, ?_, ?_, ?_, ?_, ?_, ?_, ?_, ?_, ?_, ?_, ?_, ?_, ?_, ?_,
      ?_, ?_, ?_, ?_⟩
    · show (l₁ ++ l₂).countP isChainTask ≤ 1
      omega
    · intro h1
      have := h.chain0 h1
      show (l₁ ++ l₂).countP isChainTask = 0
      omega
    · intro o ho
      have hcnt := h.cnt o ho
      refine ⟨?_, hcnt.2⟩
      show o.req_count = ((l₁ ++ l₂).countP isSubTask : Int)
      rw [← hsubeq]
      exact hcnt.1
    · intro hnone
      obtain ⟨a, b, c, d⟩ := h.pre hnone
      refine ⟨?_, b, c, d⟩
      show (l₁ ++ l₂).countP isSubTask = 0
      omega
    · exact h.succ_le
    · intro h1
      exact h.succ_jr h1
    · exact h.jr_succ
    · exact h.fail_le
    · intro h1
      obtain ⟨a, b⟩ := h.fail_pre h1
      refine ⟨a, ?_⟩
      show (l₁ ++ l₂).countP isChainTask = 0
      omega
    · exact h.fin_iff
    · show s.nCanc + 1 ≤ 1
      omega
    · show (l₁ ++ l₂).countP isCancelCbTask ≤ 1
      omega
    · intro hcf
      exact absurd hcf (by simp [hc])
    · intro _
      exact ⟨hone, hf⟩
    · exact h.rem_eq
    · exact h.reg_iff
    · exact h.add_eq
    · exact h.ents0
    · exact h.ents_built
    · exact h.ents_refs
  · have hrun : run_cancel_cb s l₁ l₂ = { s with pending := l₁ ++ l₂ } := by
      simp [run_cancel_cb, cancel_callback, hf]
    rw [hrun]
    refine ⟨?_, ?_, ?_, ?_, ?_, ?_, ?_, ?_, ?_, ?_, ?_, ?_, ?_, ?_, ?_, ?_,
      ?_, ?_, ?_, ?_⟩
    · show (l₁ ++ l₂).countP isChainTask ≤ 1
      omega
    · intro h1
      have := h.chain0 h1
      show (l₁ ++ l₂).countP isChainTask = 0
      omega
    · intro o ho
      have hcnt := h.cnt o ho
      refine ⟨?_, hcnt.2⟩
      show o.req_count = ((l₁ ++ l₂).countP isSubTask : Int)
      rw [← hsubeq]
      exact hcnt.1
    · intro hnone
      obtain ⟨a, b, c, d⟩ := h.pre hnone
      refine ⟨?_, b, c, d⟩
      show (l₁ ++ l₂).countP isSubTask = 0
      omega
    · exact h.succ_le
    · intro h1
      exact h.succ_jr h1
    · exact h.jr_succ
    · exact h.fail_le
    · intro h1
      obtain ⟨a, b⟩ := h.fail_pre h1
      refine ⟨a, ?_⟩
      show (l₁ ++ l₂).countP isChainTask = 0
      omega
    · exact h.fin_iff
    · exact h.canc_le
    · show (l₁ ++ l₂).countP isCancelCbTask ≤ 1
      omega
    · intro hcf
      exact absurd hcf (by simp [hc])
    · intro h1
      exact absurd h1 (by simp [hnc])
    · exact h.rem_eq
    · exact h.reg_iff
    · exact h.add_eq
    · exact h.ents0
    · exact h.ents_built
    · exact h.ents_refs

/-- The manifest chain's `.catch` handler preserves the invariant. -/
theorem inv_run_mcatch {s : LState} (h : Inv s) {l₁ l₂ : List LTask}
    (hp : s.pending = l₁ ++ LTask.mcatch :: l₂) :
    Inv (run_mcatch s l₁ l₂) := by
  obtain ⟨hosc, hone, hnf, hns, hcc, hbb⟩ := inv_chain_task h hp rfl
  obtain ⟨hsub0, hrefs, hents, -⟩ := h.pre hosc
  cases hc : s.cancelled
  · have hrun : run_mcatch s l₁ l₂ =
        { s with pending := l₁ ++ l₂, finished := true, registered := false,
                 removeCalls := s.removeCalls + 1, nFail := s.nFail + 1 } := by
      simp [run_mcatch, fail_callback, hc]
    rw [hrun]
    obtain ⟨hccb0, hnc0⟩ := h.not_canc hc
    have hrem : s.removeCalls = 0 := by
      have hr := h.rem_eq
      rw [hc] at hr
      simp [hns, hnf] at hr
      exact hr
    refine ⟨?_, ?_, ?_, ?_, ?_, ?_, ?_, ?_, ?_, ?_, ?_, ?_, ?_, ?_, ?_, ?_,
      ?_, ?_, ?_, ?_⟩
    · show (l₁ ++ l₂).countP isChainTask ≤ 1
      omega
    · intro _
      exact hone
    · intro o ho
      exact absurd ho (by simp [hosc])
    · intro _
      refine ⟨?_, hrefs, hents, hns⟩
      show (l₁ ++ l₂).countP isSubTask = 0
      omega
    · show s.nSucc ≤ 1
      omega
    · intro h1
      exact absurd h1 (by simp [hns])
    · intro hjr
      simp [joinReadyB, hosc] at hjr
    · show s.nFail + 1 ≤ 1
      omega
    · intro _
      exact ⟨hosc, hone⟩
    · show true = true ↔ 1 ≤ s.nSucc + (s.nFail + 1)
      exact ⟨fun _ => by omega, fun _ => rfl⟩
    · show s.nCanc ≤ 1
      omega
    · show (l₁ ++ l₂).countP isCancelCbTask ≤ 1
      omega
    · intro _
      refine ⟨?_, hnc0⟩
      show (l₁ ++ l₂).countP isCancelCbTask = 0
      omega
    · intro h1
      exact absurd h1 (by simp [hnc0])
    · show s.removeCalls + 1 = s.nSucc + (s.nFail + 1) + (if s.cancelled then 1 else 0)
      rw [hc]
      simp
      omega
    · show false = decide (s.removeCalls + 1 = 0)
      simp
    · exact h.add_eq
    · intro _
      exact hents
    · intro h1
      exact absurd h1 (by simp [hns])
    · intro h1
      exact absurd h1 (by simp [hns])
  · have hrun : run_mcatch s l₁ l₂ = { s with pending := l₁ ++ l₂ } := by
      simp [run_mcatch, fail_callback, hc]
    rw [hrun]
    exact inv_drop_chain h hp rfl

/-- Delivering the parsed manifest (second `.then` of `_loadFile`)
preserves the invariant. -/
theorem inv_run_mjson_ok {s : LState} (h : Inv s) {l₁ l₂ : List LTask}
    (m : Manifest) (hp : s.pending = l₁ ++ LTask.mjson :: l₂) :
    Inv (run_mjson_ok s l₁ l₂ m) := by
  cases hc : s.cancelled
  · have hrun : run_mjson_ok s l₁ l₂ m =
        load_object m { s with pending := l₁ ++ l₂ } := by
      simp [run_mjson_ok, hc]
    rw [hrun]
    have hdrop : Inv { s with pending := l₁ ++ l₂ } := inv_drop_chain h hp rfl
    obtain ⟨hosc, hone, hnf, hns, hcc, hbb⟩ := inv_chain_task h hp rfl
    obtain ⟨hsub0, hrefs, hents, -⟩ := h.pre hosc
    obtain ⟨hccb0, hnc0⟩ := h.not_canc hc
    set s' : LState := { s with pending := l₁ ++ l₂ } with hs'
    obtain ⟨ts, wr, hsub, hlen, hrun2⟩ := load_object_spec m s'
    rw [hrun2]
    obtain ⟨csub, cchain, cccb⟩ := allSub_counts hsub
    split
    · rename_i hcond
      obtain ⟨hts0, hcf⟩ := hcond
      have hts : ts = [] := List.length_eq_zero.mp hts0
      subst hts
      have key := inv_success_record s' m (l₁ ++ l₂) (wr ++ s'.references) 0
        hdrop hc hns hnf rfl (by omega) (by omega) (by omega)
      simpa [hs'] using key
    · rename_i hcond
      have key := inv_mid_record s' m ((l₁ ++ l₂) ++ ts) (wr ++ s'.references)
        (ts.length : Int) hdrop hns hnf
        (by have e0 : (l₁ ++ l₂).countP isSubTask = 0 := by omega
            rw [List.countP_append, e0, csub]
            simp)
        (by rw [List.countP_append, cchain]; omega)
        (by show ((l₁ ++ l₂) ++ ts).countP isCancelCbTask =
              List.countP isCancelCbTask (LState.pending s')
            rw [List.countP_append, cccb, hs']
            simp)
        (by intro h0
            have hlen0 : ts.length = 0 := by exact_mod_cast h0
            exact absurd ⟨hlen0, hc⟩ hcond)
      simpa [hs'] using key
  · have hrun : run_mjson_ok s l₁ l₂ m =
        { s with pending := l₁ ++ LTask.mcatch :: l₂ } := by
      simp [run_mjson_ok, hc]
    rw [hrun]
    exact inv_pending_replace h hp LTask.mcatch rfl rfl rfl

/-- The invariant is preserved by every step. -/
theorem inv_step {s s' : LState} (h : Inv s) (st : Step s s') : Inv s' := by
  cases st with
  | user_cancel => exact inv_user_cancel h
  | mfetch_ok hp =>
    refine inv_pending_replace h hp _ ?_ ?_ ?_ <;>
      (cases hcc : s.cancelled <;> rfl)
  | mfetch_fail hp => exact inv_pending_replace h hp LTask.mcatch rfl rfl rfl
  | mjson_ok m hp => exact inv_run_mjson_ok h m hp
  | mjson_fail hp => exact inv_pending_replace h hp LTask.mcatch rfl rfl rfl
  | mcatch hp => exact inv_run_mcatch h hp
  | mesh_fetch_ok hp =>
    refine inv_pending_replace h hp _ ?_ ?_ ?_ <;>
      (cases hcc : s.cancelled <;> rfl)
  | mesh_fetch_fail hp =>
    exact inv_pending_replace h hp (LTask.meshCatch _) rfl rfl rfl
  | mesh_buf_ok hp =>
    rename_i l1 l2 id
    cases hc : s.cancelled
    · have hrun : run_mesh_buf_ok s l1 l2 id =
          setReference { s with pending := l1 ++ LTask.meshFin id :: l2 } id
            RefObj.meshBinary := by
        simp [run_mesh_buf_ok, hc]
      rw [hrun]
      exact inv_sub_replace_write h hp rfl (LTask.meshFin id) rfl
        (id, RefObj.meshBinary)
    · have hrun : run_mesh_buf_ok s l1 l2 id =
          { s with pending := l1 ++ LTask.meshCatch id :: l2 } := by
        simp [run_mesh_buf_ok, hc]
      rw [hrun]
      exact inv_pending_replace h hp (LTask.meshCatch id) rfl rfl rfl
  | mesh_buf_fail hp =>
    exact inv_pending_replace h hp (LTask.meshCatch _) rfl rfl rfl
  | mesh_catch hp =>
    exact inv_pending_replace h hp (LTask.meshFin _) rfl rfl rfl
  | mesh_fin hp => exact inv_subFin h hp rfl []
  | image_ok hp =>
    rename_i l1 l2 id
    cases hc : s.cancelled
    · have hrun : run_image_ok s l1 l2 id =
          postload_object_ifNoReq
            (setReference { s with pending := l1 ++ l2 } id RefObj.texture) := by
        simp [run_image_ok, hc]
      rw [hrun]
      exact inv_subFin h hp rfl [(id, RefObj.texture)]
    · have hrun : run_image_ok s l1 l2 id =
          postload_object_ifNoReq { s with pending := l1 ++ l2 } := by
        simp [run_image_ok, hc]
      rw [hrun]
      exact inv_subFin h hp rfl []
  | image_fail hp => exact inv_subFin h hp rfl []
  | cancel_cb hp => exact inv_run_cancel_cb h hp

/-- The invariant holds at the end of construction. -/
theorem inv_init : Inv initState := by
  refine ⟨?_, ?_, ?_, ?_, ?_, ?_, ?_, ?_, ?_, ?_, ?_, ?_, ?_, ?_, ?_, ?_, ?_,
    ?_, ?_, ?_⟩
  · decide
  · intro h1
    exact absurd h1 (by decide)
  · intro o ho
    exact absurd ho (by simp [initState])
  · intro _
    exact ⟨by decide, rfl, rfl, rfl⟩
  · decide
  · intro h1
    exact absurd h1 (by decide)
  · intro hjr
    exact absurd hjr (by decide)
  · decide
  · intro h1
    exact absurd h1 (by decide)
  ·exact ⟨fun h1 => absurd h1 (by decide), fun h1 => absurd h1 (by decide)⟩
  · decide
  · decide
  · intro _
    exact ⟨by decide, rfl⟩
  · intro h1
    exact absurd h1 (by decide)
  · decide
  · decide
  · decide
  · intro _
    rfl
  · intro h1
    exact absurd h1 (by decide)
  · intro h1
    exact absurd h1 (by decide)

/-- Every reachable state satisfies the invariant. -/
theorem inv_reachable {s : LState} (h : Reachable s) : Inv s := by
  induction h with
  | refl => exact inv_init
  | tail h1 h2 ih => exact inv_step ih h2

/-! ### When does the gated continuation fire? -/

theorem succ_iff_of_same {s : LState} (t : LState) (hn : t.nSucc = s.nSucc)
    (ho : t.oscene = s.oscene) :
    (t.nSucc = s.nSucc + 1 ↔
      (joinReadyB s = false ∧ joinReadyB t = true ∧ s.cancelled = false)) := by
  rw [hn, joinReadyB_congr ho]
  constructor
  · intro hh
    omega
  · rintro ⟨h1, h2, -⟩
    rw [h1] at h2
    exact absurd h2 (by simp)

theorem succ_iff_subFin {s : LState} (h : Inv s) {l₁ l₂ : List LTask}
    {t : LTask} (hp : s.pending = l₁ ++ t :: l₂) (ht : isSubTask t = true)
    (wr : List (String × RefObj)) :
    ((postload_object_ifNoReq
        { s with pending := l₁ ++ l₂, references := wr ++ s.references }).nSucc
      = s.nSucc + 1 ↔
     (joinReadyB s = false ∧
      joinReadyB (postload_object_ifNoReq
        { s with pending := l₁ ++ l₂, references := wr ++ s.references }) = true ∧
      s.cancelled = false)) := by
  obtain ⟨o, ho, hrc, hre, hns, hnf, -, -⟩ := inv_sub_task h hp ht
  obtain ⟨om, oc, oe⟩ := o
  have hre' : oe = true := hre
  subst hre'
  have ho' : s.oscene = some ⟨om, oc, true⟩ := ho
  have hrc' : oc = (((l₁ ++ l₂).countP isSubTask + 1 : Nat) : Int) := hrc
  have hjrs : joinReadyB s = false := by
    simp only [joinReadyB, ho']
    simp [hrc']
    omega
  have hstate : ({ s with pending := l₁ ++ l₂, references := wr ++ s.references } : LState) =
      { s with pending := l₁ ++ l₂, references := wr ++ s.references,
               oscene := some ⟨om, oc, true⟩ } := by
    rw [← ho']
  rw [hstate, ifNoReq_spec]
  split
  · rename_i hcond
    obtain ⟨hz, hc⟩ := hcond
    constructor
    · intro _
      refine ⟨hjrs, ?_, hc⟩
      simp [joinReadyB, hz]
    · intro _
      rfl
  · rename_i hcond
    constructor
    · intro hh
      simp at hh
    · rintro ⟨-, hjt, hcf⟩
      simp only [joinReadyB] at hjt
      simp at hjt
      exact absurd ⟨hjt, hcf⟩ hcond

/-- In every step, the success count increments exactly when the join
condition (`req_count == 0 && req_ended`) becomes true in that step while
the operation is not cancelled. -/
theorem step_succ_iff {s s' : LState} (h : Inv s) (st : Step s s') :
    s'.nSucc = s.nSucc + 1 ↔
      (joinReadyB s = false ∧ joinReadyB s' = true ∧ s.cancelled = false) := by
  cases st with
  | user_cancel =>
    exact succ_iff_of_same _ (by unfold cancel; split <;> rfl)
      (by unfold cancel; split <;> rfl)
  | mfetch_ok hp => exact succ_iff_of_same _ rfl rfl
  | mfetch_fail hp => exact succ_iff_of_same _ rfl rfl
  | mjson_ok m hp =>
    rename_i l1 l2
    cases hc : s.cancelled
    · have hrun : run_mjson_ok s l1 l2 m =
          load_object m { s with pending := l1 ++ l2 } := by
        simp [run_mjson_ok, hc]
      rw [hrun]
      obtain ⟨hosc, -, -, hns, -, -⟩ := inv_chain_task h hp rfl
      have hjrs : joinReadyB s = false := by simp [joinReadyB, hosc]
      obtain ⟨ts, wr, hsub, hlen, hrun2⟩ :=
        load_object_spec m { s with pending := l1 ++ l2 }
      rw [hrun2]
      split
      · rename_i hcond
        obtain ⟨hz, -⟩ := hcond
        constructor
        · intro _
          refine ⟨hjrs, ?_, rfl⟩
          simp [joinReadyB, hz]
        · intro _
          rfl
      · rename_i hcond
        constructor
        · intro hh
          simp at hh
        · rintro ⟨-, hjt, -⟩
          simp only [joinReadyB] at hjt
          simp at hjt
          refine absurd ⟨?_, ?_⟩ hcond
          · simp [hjt]
          · exact hc
    · have hrun : run_mjson_ok s l1 l2 m =
          { s with pending := l1 ++ LTask.mcatch :: l2 } := by
        simp [run_mjson_ok, hc]
      rw [hrun]
      constructor
      · intro hh
        simp at hh
      · rintro ⟨-, -, hcf⟩
        exact absurd hcf (by simp)
  | mjson_fail hp => exact succ_iff_of_same _ rfl rfl
  | mcatch hp =>
    exact succ_iff_of_same _
      (by unfold run_mcatch fail_callback; split <;> rfl)
      (by unfold run_mcatch fail_callback; split <;> rfl)
  | mesh_fetch_ok hp => exact succ_iff_of_same _ rfl rfl
  | mesh_fetch_fail hp => exact succ_iff_of_same _ rfl rfl
  | mesh_buf_ok hp =>
    exact succ_iff_of_same _
      (by unfold run_mesh_buf_ok setReference; split <;> rfl)
      (by unfold run_mesh_buf_ok setReference; split <;> rfl)
  | mesh_buf_fail hp => exact succ_iff_of_same _ rfl rfl
  | mesh_catch hp => exact succ_iff_of_same _ rfl rfl
  | mesh_fin hp => exact succ_iff_subFin h hp rfl []
  | image_ok hp =>
    rename_i l1 l2 id
    cases hc : s.cancelled
    · have hrun : run_image_ok s l1 l2 id =
          postload_object_ifNoReq
            (setReference { s with pending := l1 ++ l2 } id RefObj.texture) := by
        simp [run_image_ok, hc]
      rw [hrun]
      have key := succ_iff_subFin h hp rfl [(id, RefObj.texture)]
      simpa [hc] using key
    · have hrun : run_image_ok s l1 l2 id =
          postload_object_ifNoReq { s with pending := l1 ++ l2 } := by
        simp [run_image_ok, hc]
      rw [hrun]
      have key := succ_iff_subFin h hp rfl []
      simpa [hc] using key
  | image_fail hp => exact succ_iff_subFin h hp rfl []
  | cancel_cb hp =>
    exact succ_iff_of_same _
      (by unfold run_cancel_cb cancel_callback; split <;> rfl)
      (by unfold run_cancel_cb cancel_callback; split <;> rfl)

/-! ### Reachability of the example states -/

theorem reach_exS1 : Reachable exS1 :=
  Relation.ReflTransGen.tail Relation.ReflTransGen.refl
    (@Step.mfetch_ok initState [] [] rfl)

theorem reach_exSuccEmpty : Reachable exSuccEmpty :=
  Relation.ReflTransGen.tail reach_exS1
    (@Step.mjson_ok exS1 [] [] exEmptyManifest (by decide))

theorem reach_exAfterSucc : Reachable exAfterSucc :=
  Relation.ReflTransGen.tail reach_exSuccEmpty (@Step.user_cancel exSuccEmpty)

theorem reach_exSEntity : Reachable exSEntity :=
  Relation.ReflTransGen.tail reach_exS1
    (@Step.mjson_ok exS1 [] [] exEntityManifest (by decide))

theorem reach_exSTex : Reachable exSTex :=
  Relation.ReflTransGen.tail reach_exS1
    (@Step.mjson_ok exS1 [] [] exTexManifest (by decide))

theorem reach_exSTexDone : Reachable exSTexDone :=
  Relation.ReflTransGen.tail reach_exSTex
    (@Step.image_fail exSTex [] [] "t1" (by decide))

/-! ### Further consequences of the invariant -/

theorem inv_succ_fail_le {s : LState} (h : Inv s) : s.nSucc + s.nFail ≤ 1 := by
  rcases hs : s.nSucc with _ | k
  · have := h.fail_le
    omega
  · have hs1 : s.nSucc = 1 := le_antisymm h.succ_le (by omega)
    have hjr := h.succ_jr hs1
    rcases ho : s.oscene with _ | o
    · simp [joinReadyB, ho] at hjr
    · have hf : s.nFail = 0 := by
        rcases hf : s.nFail with _ | f
        · rfl
        · have hf1 : s.nFail = 1 := le_antisymm h.fail_le (by omega)
          obtain ⟨hnone, -⟩ := h.fail_pre hf1
          rw [hnone] at ho
          exact absurd ho (by simp)
      omega

theorem success_callback_oscene (s : LState) :
    (success_callback s).oscene = s.oscene := by
  unfold success_callback
  split <;> rfl

theorem load_entity_list_oscene (s : LState) :
    (load_entity_list s).oscene = s.oscene := by
  rcases ho : s.oscene with _ | o
  · unfold load_entity_list
    rw [ho]
    exact ho
  · rw [load_entity_list_eq ho]
    exact ho

theorem postload_object_oscene (s : LState) :
    (postload_object s).oscene = s.oscene := by
  unfold postload_object
  split
  · rfl
  · rw [success_callback_oscene, load_entity_list_oscene]

theorem ifNoReq_oscene_decr (s : LState) (o : OScene) (h : s.oscene = some o) :
    ∃ o', (postload_object_ifNoReq s).oscene = some o' ∧
      o'.req_count = o.req_count - 1 ∧ o'.req_ended = o.req_ended ∧
      o'.manifest = o.manifest := by
  rw [postload_object_ifNoReq_eq h]
  refine ⟨{ o with req_count := o.req_count - 1 }, ?_, rfl, rfl, rfl⟩
  split
  · rw [postload_object_oscene]
  · rfl

theorem ifNoReq_cancelled (s : LState) (hc : s.cancelled = true) :
    postload_object_ifNoReq s = decr_req s := by
  unfold postload_object_ifNoReq
  rcases ho : (decr_req s).oscene with _ | o
  · simp [ho]
  · simp only [ho]
    have hc' : (decr_req s).cancelled = true := hc
    rw [postload_object_cancelled _ hc']
    split <;> rfl

theorem cancel_callback_frame (s : LState) :
    (cancel_callback s).references = s.references ∧
    (cancel_callback s).sceneEntities = s.sceneEntities := by
  unfold cancel_callback
  split <;> exact ⟨rfl, rfl⟩

/-! ### Register loops and manifests that differ only in inert entries -/

theorem load_mesh_list_append (a b : List (String × MeshEntry)) :
    ∀ s : LState, load_mesh_list s (a ++ b) = load_mesh_list (load_mesh_list s a) b := by
  induction a with
  | nil => intro s; rfl
  | cons e rest ih =>
    intro s
    obtain ⟨id, mesh⟩ := e
    show load_mesh_list (load_mesh_entry s id mesh) (rest ++ b) = _
    rw [ih]
    rfl

theorem load_texture_list_append (a b : List (String × TexEntry)) :
    ∀ s : LState, load_texture_list s (a ++ b) =
      load_texture_list (load_texture_list s a) b := by
  induction a with
  | nil => intro s; rfl
  | cons e rest ih =>
    intro s
    obtain ⟨id, tex⟩ := e
    show load_texture_list (load_texture_entry s id tex) (rest ++ b) = _
    rw [ih]
    rfl

theorem entityBuilds_congr {m₁ m₂ : Manifest} (h : m₁.entity_list = m₂.entity_list) :
    entityBuilds m₁ = entityBuilds m₂ := by
  unfold entityBuilds
  rw [h]

theorem entityWritesM_congr {m₁ m₂ : Manifest} (h : m₁.entity_list = m₂.entity_list) :
    entityWritesM m₁ = entityWritesM m₂ := by
  unfold entityWritesM
  rw [h]

theorem load_object_obs_congr (m₁ m₂ : Manifest)
    (hent : m₁.entity_list = m₂.entity_list)
    (hmesh : ∀ t : LState, load_mesh_register t m₁.mesh_register =
       load_mesh_register t m₂.mesh_register)
    (htex : ∀ t : LState, load_texture_register t m₁.texture_register =
       load_texture_register t m₂.texture_register)
    (s : LState) : obs (load_object m₁ s) = obs (load_object m₂ s) := by
  obtain ⟨ts1, wr1, hsub1, hlen1, h1⟩ := load_mesh_register_spec m₂.mesh_register
  obtain ⟨ts2, hsub2, hlen2, h2⟩ := load_texture_register_spec m₂.texture_register
  have hmid1 : load_texture_register
      (load_mesh_register
        { s with oscene := some { manifest := m₁, req_count := 0, req_ended := false } }
        m₁.mesh_register) m₁.texture_register =
      midState s m₁ (s.pending ++ (ts1 ++ ts2)) (wr1 ++ s.references)
        (ts1.length + ts2.length) := by
    rw [hmesh, htex, h2, h1]
    simp [midState, bumpN, List.append_assoc]
  have hmid2 : load_texture_register
      (load_mesh_register
        { s with oscene := some { manifest := m₂, req_count := 0, req_ended := false } }
        m₂.mesh_register) m₂.texture_register =
      midState s m₂ (s.pending ++ (ts1 ++ ts2)) (wr1 ++ s.references)
        (ts1.length + ts2.length) := by
    rw [h2, h1]
    simp [midState, bumpN, List.append_assoc]
  rw [load_object_unfold m₁ s, hmid1, load_object_tail,
      load_object_unfold m₂ s, hmid2, load_object_tail]
  rw [entityBuilds_congr hent, entityWritesM_congr hent]
  split <;> simp [obs]

/-! ### The claims -/

/-- Claim C1: for every load operation, at most one terminal completion
callback fires — over every reachable state, the total number of
invocations of the completion callback (success, failure and
cancel-acknowledgement taken together) is at most one, so it is never
invoked a second time after it has already been invoked. -/
theorem C1_terminal_callback_at_most_once (s : LState) (h : Reachable s) :
    s.nSucc + s.nFail + s.nCanc ≤ 1 := by
  have hi := inv_reachable h
  have hsf := inv_succ_fail_le hi
  rcases hn : s.nCanc with _ | n
  · omega
  · have h1 : s.nCanc = 1 := le_antisymm hi.canc_le (by omega)
    obtain ⟨-, hfin⟩ := hi.canc_done h1
    have hz : ¬ (1 ≤ s.nSucc + s.nFail) := by
      intro hge
      have := hi.fin_iff.mpr hge
      rw [hfin] at this
      exact absurd this (by simp)
    omega

theorem C1_terminal_callback_at_most_once_w :
    Reachable exAfterSucc ∧
    exAfterSucc.nSucc + exAfterSucc.nFail + exAfterSucc.nCanc ≤ 1 :=
  ⟨reach_exAfterSucc, C1_terminal_callback_at_most_once exAfterSucc reach_exAfterSucc⟩

/-- Claim C2: the gated continuation (entity construction followed by the
success callback) fires exactly when the join condition
`req_count == 0 && req_ended` becomes true while the operation is not
cancelled — in every step from a reachable state the success count
increments precisely at that transition, it never exceeds one, and for a
manifest with zero external sub-resources `_load_object` fires it directly
(the join condition holds immediately at the end of registration). -/
theorem C2_gated_continuation :
    (∀ s s' : LState, Reachable s → Step s s' →
      (s'.nSucc = s.nSucc + 1 ↔
        joinReadyB s = false ∧ joinReadyB s' = true ∧ s.cancelled = false)) ∧
    (∀ s : LState, Reachable s → s.nSucc ≤ 1) ∧
    (∀ (m : Manifest) (s : LState), dispatchCount m = 0 → s.cancelled = false →
      (load_object m s).nSucc = s.nSucc + 1 ∧
      joinReadyB (load_object m s) = true) := by
  refine ⟨?_, ?_, ?_⟩
  · intro s s' hr st
    exact step_succ_iff (inv_reachable hr) st
  · intro s hr
    exact (inv_reachable hr).succ_le
  · intro m s hd hc
    obtain ⟨ts, wr, hsub, hlen, hrun⟩ := load_object_spec m s
    have hz : ts.length = 0 := by rw [hlen]; exact hd
    rw [hrun]
    split
    · constructor
      · rfl
      · simp [joinReadyB, hz]
    · rename_i hcond
      exact absurd ⟨hz, hc⟩ hcond

theorem C2_gated_continuation_w :
    (exSuccEmpty.nSucc = exS1.nSucc + 1 ↔
      joinReadyB exS1 = false ∧ joinReadyB exSuccEmpty = true ∧
      exS1.cancelled = false) ∧
    exS1.nSucc ≤ 1 ∧
    ((load_object exEmptyManifest exS1).nSucc = exS1.nSucc + 1 ∧
      joinReadyB (load_object exEmptyManifest exS1) = true) :=
  ⟨C2_gated_continuation.1 exS1 exSuccEmpty reach_exS1
      (@Step.mjson_ok exS1 [] [] exEmptyManifest (by decide)),
   C2_gated_continuation.2.1 exS1 reach_exS1,
   C2_gated_continuation.2.2 exEmptyManifest exS1 (by decide) (by decide)⟩

/-- Claim C3 (counterexample): in the constructor the manifest fetch
(`this._loadFile()`, line 38) is issued strictly before
`scene.addLoader(this)` (line 40), so the loader does not register itself
with the target scene before any I/O is issued. -/
theorem C3_registration_counterexample :
    ¬ (constructorActions.indexOf CtorAction.addLoader <
       constructorActions.indexOf CtorAction.issueFetch) := by
  decide

/-- Claim C3 (amended): the constructor issues the manifest fetch
immediately (no deferred start) and then registers the loader with the
target scene, both within the same synchronous constructor body — the
fetch is issued before, not after, registration; at the end of
construction the loader is registered with the fetch pending, so
`cancel()` is still possible before the manifest response arrives. -/
theorem C3_registration_amended :
    constructorActions =
      [CtorAction.setFields, CtorAction.issueFetch, CtorAction.addLoader] ∧
    constructorActions.indexOf CtorAction.issueFetch <
      constructorActions.indexOf CtorAction.addLoader ∧
    initState.registered = true ∧ initState.addCalls = 1 ∧
    initState.pending = [LTask.mfetch] ∧
    (cancel initState).cancelled = true ∧
    (cancel initState).removeCalls = 1 := by
  decide

/-- Claim C4: an individual sub-resource failure is non-fatal — from any
reachable state, when every pending continuation has drained without a
cancel and the manifest was parsed, the completion callback has fired with
success and no failure callback ever fired; the image `onerror` handler
still decrements the join counter; the mesh-chain `.catch` writes nothing
into the reference table; and in the concrete run where the single texture
fetch fails, success still fires while `getReference` of the failed id
returns null. -/
theorem C4_subresource_failure_nonfatal :
    (∀ s : LState, Reachable s → s.pending = [] → s.cancelled = false →
      s.oscene.isSome = true → s.nSucc = 1 ∧ s.nFail = 0) ∧
    (∀ (s : LState) (l₁ l₂ : List LTask) (o : OScene), s.oscene = some o →
      ∃ o', (run_image_fail s l₁ l₂).oscene = some o' ∧
        o'.req_count = o.req_count - 1) ∧
    (∀ (s : LState) (l₁ l₂ : List LTask) (id : String),
      (run_mesh_catch s l₁ l₂ id).references = s.references) ∧
    (Reachable exSTexDone ∧ getReference exSTexDone "t1" = none ∧
      exSTexDone.nSucc = 1 ∧ exSTexDone.nFail = 0 ∧
      exSTexDone.finished = true) := by
  refine ⟨?_, ?_, ?_, reach_exSTexDone, by decide, by decide, by decide, by decide⟩
  · intro s hr hp hc hosome
    have hi := inv_reachable hr
    rcases ho : s.oscene with _ | o
    · rw [ho] at hosome
      exact absurd hosome (by simp)
    · obtain ⟨hrc, hre⟩ := hi.cnt o ho
      have hjr : joinReadyB s = true := by
        simp [joinReadyB, ho, hrc, hre, hp]
      have hs1 : s.nSucc = 1 := by
        rcases hi.jr_succ hjr with hcc | hs
        · rw [hc] at hcc
          exact absurd hcc (by simp)
        · exact hs
      refine ⟨hs1, ?_⟩
      rcases hf : s.nFail with _ | f
      · rfl
      · have hf1 : s.nFail = 1 := le_antisymm hi.fail_le (by omega)
        obtain ⟨hnone, -⟩ := hi.fail_pre hf1
        rw [hnone] at ho
        exact absurd ho (by simp)
  · intro s l₁ l₂ o ho
    have ho' : ({ s with pending := l₁ ++ l₂ } : LState).oscene = some o := ho
    obtain ⟨o', h1, h2, -, -⟩ :=
      ifNoReq_oscene_decr { s with pending := l₁ ++ l₂ } o ho'
    exact ⟨o', h1, h2⟩
  · intro s l₁ l₂ id
    rfl

theorem C4_subresource_failure_nonfatal_w :
    (exSTexDone.nSucc = 1 ∧ exSTexDone.nFail = 0) ∧
    (∃ o', (run_image_fail exSTex [] []).oscene = some o' ∧
      o'.req_count = (⟨exTexManifest, 1, true⟩ : OScene).req_count - 1) ∧
    (run_mesh_catch initState [] [] "m").references = initState.references :=
  ⟨C4_subresource_failure_nonfatal.1 exSTexDone reach_exSTexDone
      (by decide) (by decide) (by decide),
   C4_subresource_failure_nonfatal.2.1 exSTex [] [] ⟨exTexManifest, 1, true⟩ (by decide),
   C4_subresource_failure_nonfatal.2.2.1 initState [] [] "m"⟩

/-- Claim C5: once the cancelled flag is set, no step of the event loop
produces further observable side effects on the shared state — neither a
write to the reference table nor an entity appended to the target scene. -/
theorem C5_no_side_effects_after_cancel (s s' : LState)
    (hc : s.cancelled = true) (st : Step s s') :
    s'.references = s.references ∧ s'.sceneEntities = s.sceneEntities := by
  cases st with
  | user_cancel => rw [cancel]; simp [hc]
  | mfetch_ok hp => exact ⟨rfl, rfl⟩
  | mfetch_fail hp => exact ⟨rfl, rfl⟩
  | mjson_ok m hp =>
    constructor <;> simp [run_mjson_ok, hc]
  | mjson_fail hp => exact ⟨rfl, rfl⟩
  | mcatch hp =>
    constructor <;> simp [run_mcatch, fail_callback, hc]
  | mesh_fetch_ok hp => exact ⟨rfl, rfl⟩
  | mesh_fetch_fail hp => exact ⟨rfl, rfl⟩
  | mesh_buf_ok hp =>
    constructor <;> simp [run_mesh_buf_ok, hc]
  | mesh_buf_fail hp => exact ⟨rfl, rfl⟩
  | mesh_catch hp => exact ⟨rfl, rfl⟩
  | mesh_fin hp =>
    rename_i l1 l2 id
    have hc' : ({ s with pending := l1 ++ l2 } : LState).cancelled = true := hc
    have hrun : run_mesh_fin s l1 l2 = decr_req { s with pending := l1 ++ l2 } := by
      rw [run_mesh_fin, ifNoReq_cancelled _ hc']
    rw [hrun]
    exact ⟨rfl, rfl⟩
  | image_ok hp =>
    rename_i l1 l2 id
    have hc' : ({ s with pending := l1 ++ l2 } : LState).cancelled = true := hc
    have hrun : run_image_ok s l1 l2 id = decr_req { s with pending := l1 ++ l2 } := by
      rw [run_image_ok, if_pos hc, ifNoReq_cancelled _ hc']
    rw [hrun]
    exact ⟨rfl, rfl⟩
  | image_fail hp =>
    rename_i l1 l2 id
    have hc' : ({ s with pending := l1 ++ l2 } : LState).cancelled = true := hc
    have hrun : run_image_fail s l1 l2 = decr_req { s with pending := l1 ++ l2 } := by
      rw [run_image_fail, ifNoReq_cancelled _ hc']
    rw [hrun]
    exact ⟨rfl, rfl⟩
  | cancel_cb hp =>
    exact cancel_callback_frame _

theorem C5_no_side_effects_after_cancel_w :
    (cancel initState).cancelled = true ∧
    ((cancel (cancel initState)).references = (cancel initState).references ∧
     (cancel (cancel initState)).sceneEntities = (cancel initState).sceneEntities) :=
  ⟨by decide,
   C5_no_side_effects_after_cancel (cancel initState) (cancel (cancel initState))
     (by decide) Step.user_cancel⟩

/-- Claim C6: `cancel()` is idempotent — the first call on a
not-yet-cancelled loader flips the cancelled flag, signals the abort
token, deregisters the loader from the scene, and only schedules the
cancellation callback (it does not invoke it synchronously: `nCanc` is
unchanged and a `cancelCb` task is appended); any call on an already
cancelled loader is a no-op, so a second `cancel()` leaves the state
identical to that after a single one. -/
theorem C6_cancel_idempotent (s : LState) :
    cancel (cancel s) = cancel s ∧
    (s.cancelled = false →
      (cancel s).cancelled = true ∧ (cancel s).aborted = true ∧
      (cancel s).registered = false ∧
      (cancel s).removeCalls = s.removeCalls + 1 ∧
      (cancel s).pending = s.pending ++ [LTask.cancelCb] ∧
      (cancel s).nCanc = s.nCanc) ∧
    (s.cancelled = true → cancel s = s) := by
  refine ⟨?_, ?_, ?_⟩
  · by_cases hc : s.cancelled = true
    · simp [cancel, hc]
    · have hc' : s.cancelled = false := by simpa using hc
      simp [cancel, hc']
  · intro hc
    simp [cancel, hc]
  · intro hc
    simp [cancel, hc]

theorem C6_cancel_idempotent_w :
    cancel (cancel initState) = cancel initState ∧
    (cancel initState).cancelled = true ∧
    (cancel initState).nCanc = initState.nCanc ∧
    cancel exAfterSucc = exAfterSucc :=
  ⟨(C6_cancel_idempotent initState).1,
   ((C6_cancel_idempotent initState).2.1 rfl).1,
   ((C6_cancel_idempotent initState).2.1 rfl).2.2.2.2.2,
   (C6_cancel_idempotent exAfterSucc).2.2 (by decide)⟩

/-- Claim C7: after the success callback, the target scene's entity list
is exactly the list of entities built from the non-unknown-type
descriptors of `entity_list` in declaration order, and every reference the
entity loop records is retrievable through `getReference`; a descriptor
omitting `type` builds a generic entity; a descriptor of unknown type is
skipped without any effect. -/
theorem C7_entity_list_on_success (s : LState) (hr : Reachable s)
    (hs : s.nSucc = 1) (o : OScene) (ho : s.oscene = some o) :
    (s.sceneEntities = entityBuilds o.manifest ∧
     ∀ id v, refLookup (entityWritesM o.manifest) id = some v →
       getReference s id = some v) ∧
    (∀ item : EntityItem, item.type = none →
       buildEntity item = some (SEntity.generic item)) ∧
    (∀ (t : LState) (item : EntityItem), buildEntity item = none →
       addEntityStep t item = t) ∧
    (∀ (m : Manifest) (items : List EntityItem), m.entity_list = some items →
       entityBuilds m = items.filterMap buildEntity) := by
  have hi := inv_reachable hr
  refine ⟨⟨hi.ents_built hs o ho, ?_⟩, ?_, ?_, ?_⟩
  · intro id v hv
    exact hi.ents_refs hs o ho id v hv
  · intro item h
    simp [buildEntity, entityTypeOf, h]
  · intro t item h
    simp [addEntityStep, h]
  · intro m items h
    simp [entityBuilds, h]

theorem C7_entity_list_on_success_w :
    (exSEntity.sceneEntities = entityBuilds exEntityManifest ∧
     getReference exSEntity "e1" =
       some (RefObj.entity (SEntity.generic exEntityItem))) ∧
    buildEntity exEntityItem = some (SEntity.generic exEntityItem) := by
  have key := C7_entity_list_on_success exSEntity reach_exSEntity (by decide)
    ⟨exEntityManifest, 0, true⟩ (by decide)
  exact ⟨⟨key.1.1, key.1.2 "e1" (RefObj.entity (SEntity.generic exEntityItem))
    (by decide)⟩, key.2.1 exEntityItem rfl⟩

/-- Claim C8 (counterexample): a load operation cancelled after the
success callback has fired reaches a state in which
`scene.removeLoader(this)` has been invoked twice — once by
`_success_callback` and once again by `cancel()` — so deregistration is
not "exactly once over the whole lifetime" under every combination of
completion and `cancel()`. -/
theorem C8_deregistered_once_counterexample :
    Reachable exAfterSucc ∧ exAfterSucc.removeCalls = 2 :=
  ⟨reach_exAfterSucc, by decide⟩

/-- Claim C8 (amended): every load operation is registered exactly once at
creation; `removeLoader` is invoked once by the terminal success or
failure callback and once by `cancel()` — on every reachable state
`removeCalls` equals the number of terminal callbacks plus one if
cancelled, hence is exactly the number of terminal callbacks (at most one)
as long as `cancel()` has not been called, but reaches two when a
completed load is subsequently cancelled. -/
theorem C8_deregistration_accounting (s : LState) (hr : Reachable s) :
    s.addCalls = 1 ∧
    s.removeCalls = s.nSucc + s.nFail + (if s.cancelled then 1 else 0) ∧
    s.nSucc + s.nFail ≤ 1 ∧
    (s.cancelled = false → s.removeCalls = s.nSucc + s.nFail) ∧
    s.removeCalls ≤ 2 := by
  have hi := inv_reachable hr
  have hsf := inv_succ_fail_le hi
  have hrem := hi.rem_eq
  refine ⟨hi.add_eq, hrem, hsf, ?_, ?_⟩
  · intro hc
    rw [hrem, hc]
    simp
  · rw [hrem]
    split <;> omega

theorem C8_deregistration_accounting_w :
    exSTexDone.addCalls = 1 ∧
    exSTexDone.removeCalls = exSTexDone.nSucc + exSTexDone.nFail +
      (if exSTexDone.cancelled then 1 else 0) ∧
    exSTexDone.removeCalls ≤ 2 := by
  obtain ⟨a, b, -, -, c⟩ :=
    C8_deregistration_accounting exSTexDone reach_exSTexDone
  exact ⟨a, b, c⟩

/-- Claim C9: `getReference` is a total, pure lookup — after
`_setReference(id, item)` it returns `some item` for `id` and is unchanged
for every other key (most recent registration wins), it returns `none`
(not an error) for an unregistered key — in particular on the freshly
constructed loader, before the success callback has fired — and on every
state it yields either `none` or a registered object. -/
theorem C9_getReference_total_lookup :
    (∀ (s : LState) (id : String) (item : RefObj),
      getReference (setReference s id item) id = some item) ∧
    (∀ (s : LState) (id id' : String) (item : RefObj), id' ≠ id →
      getReference (setReference s id item) id' = getReference s id') ∧
    (∀ id : String, getReference initState id = none) ∧
    (∀ (s : LState) (id : String),
      getReference s id = none ∨ ∃ v, getReference s id = some v) := by
  refine ⟨?_, ?_, ?_, ?_⟩
  · intro s id item
    exact refLookup_cons_self s.references id item
  · intro s id id' item h
    exact refLookup_cons_ne s.references h item
  · intro id
    rfl
  · intro s id
    rcases h : getReference s id with _ | v
    · exact Or.inl rfl
    · exact Or.inr ⟨v, rfl⟩

theorem C9_getReference_total_lookup_w :
    getReference (setReference initState "a" RefObj.meshBinary) "a" =
      some RefObj.meshBinary ∧
    getReference (setReference initState "a" RefObj.meshBinary) "b" =
      getReference initState "b" ∧
    getReference initState "b" = none :=
  ⟨C9_getReference_total_lookup.1 initState "a" RefObj.meshBinary,
   C9_getReference_total_lookup.2.1 initState "a" "b" RefObj.meshBinary (by decide),
   C9_getReference_total_lookup.2.2.1 "b"⟩

/-- Claim C10: a `mesh_register` entry with neither `binary` nor
`vertices`, and a `texture_register` entry without `image`, are silently
ignored — the register-loop body leaves the state completely unchanged (no
reference-table write, no counter increment, no dispatched fetch), and
deleting such an entry from a manifest leaves every observable outcome of
`_load_object` (reference table, pending fetches, counters, callbacks,
scene entities, `req_count`/`req_ended`) unchanged. -/
theorem C10_inert_entries_ignored :
    (∀ (s : LState) (id : String) (mesh : MeshEntry),
      truthyStr mesh.binary = false → mesh.vertices = false →
      load_mesh_entry s id mesh = s) ∧
    (∀ (s : LState) (id : String) (tex : TexEntry),
      truthyStr tex.image = false → load_texture_entry s id tex = s) ∧
    (∀ (e₁ e₂ : List (String × MeshEntry)) (idm : String) (mesh : MeshEntry)
      (tr : Option (List (String × TexEntry))) (el : Option (List EntityItem))
      (s : LState), truthyStr mesh.binary = false → mesh.vertices = false →
      obs (load_object ⟨some (e₁ ++ (idm, mesh) :: e₂), tr, el⟩ s) =
      obs (load_object ⟨some (e₁ ++ e₂), tr, el⟩ s)) ∧
    (∀ (e₁ e₂ : List (String × TexEntry)) (idt : String) (tex : TexEntry)
      (mr : Option (List (String × MeshEntry))) (el : Option (List EntityItem))
      (s : LState), truthyStr tex.image = false →
      obs (load_object ⟨mr, some (e₁ ++ (idt, tex) :: e₂), el⟩ s) =
      obs (load_object ⟨mr, some (e₁ ++ e₂), el⟩ s)) := by
  have hm : ∀ (s : LState) (id : String) (mesh : MeshEntry),
      truthyStr mesh.binary = false → mesh.vertices = false →
      load_mesh_entry s id mesh = s := by
    intro s id mesh hb hv
    simp [load_mesh_entry, hb, hv]
  have ht : ∀ (s : LState) (id : String) (tex : TexEntry),
      truthyStr tex.image = false → load_texture_entry s id tex = s := by
    intro s id tex hb
    simp [load_texture_entry, hb]
  refine ⟨hm, ht, ?_, ?_⟩
  · intro e₁ e₂ idm mesh tr el s hb hv
    refine load_object_obs_congr ⟨some (e₁ ++ (idm, mesh) :: e₂), tr, el⟩
      ⟨some (e₁ ++ e₂), tr, el⟩ rfl ?_ (fun t => rfl) s
    intro t
    show load_mesh_list t (e₁ ++ (idm, mesh) :: e₂) = load_mesh_list t (e₁ ++ e₂)
    rw [load_mesh_list_append, load_mesh_list_append]
    show load_mesh_list (load_mesh_entry (load_mesh_list t e₁) idm mesh) e₂ = _
    rw [hm _ idm mesh hb hv]
  · intro e₁ e₂ idt tex mr el s hb
    refine load_object_obs_congr ⟨mr, some (e₁ ++ (idt, tex) :: e₂), el⟩
      ⟨mr, some (e₁ ++ e₂), el⟩ rfl (fun t => rfl) ?_ s
    intro t
    show load_texture_list t (e₁ ++ (idt, tex) :: e₂) = load_texture_list t (e₁ ++ e₂)
    rw [load_texture_list_append, load_texture_list_append]
    show load_texture_list (load_texture_entry (load_texture_list t e₁) idt tex) e₂ = _
    rw [ht _ idt tex hb]

theorem C10_inert_entries_ignored_w :
    load_mesh_entry initState "m1" exBadMesh = initState ∧
    load_texture_entry initState "t1" exBadTex = initState ∧
    obs (load_object ⟨some [("m1", exBadMesh)], none, none⟩ initState) =
      obs (load_object ⟨some [], none, none⟩ initState) ∧
    obs (load_object ⟨none, some [("t1", exBadTex)], none⟩ initState) =
      obs (load_object ⟨none, some [], none⟩ initState) :=
  ⟨C10_inert_entries_ignored.1 initState "m1" exBadMesh (by decide) (by decide),
   C10_inert_entries_ignored.2.1 initState "t1" exBadTex (by decide),
   C10_inert_entries_ignored.2.2.1 [] [] "m1" exBadMesh none none initState
     (by decide) (by decide),
   C10_inert_entries_ignored.2.2.2 [] [] "t1" exBadTex none none initState
     (by decide)⟩

end Mapray
